import Mathlib

/-!
Verification of the strand-topology mutation algorithms of the `ensnano`
design editor (`src/app_state/design_interactor/controller.rs`).

The controller operates on the data model of the `ensnano_design` crate
(`Nucl`, `Domain`, `HelixInterval`, `DomainJunction`, `Strand`, `Design`),
whose sources are not part of this repository snapshot; those definitions are
modelled from the specification (spec §3) and from the way the controller
uses them, and each such definition is marked `Modelled from the spec`.
The controller functions themselves (`split_strand`, `break_cycle`,
`merge_strands`, `make_cycle`, `cross_cut`, `general_cross_over`, `junction`)
are translated line by line from the Rust source.

Conventions of the embedding:
* `usize` is modelled as `Nat`; the one place where the source can underflow
  a `usize` (`n - 1` with `n = 0`) is modelled with the release-mode wrapping
  semantics, `(n + 2^64 - 1) % 2^64`.
* `isize` positions are modelled as `Int`.
* A Rust function that can panic is modelled with an explicit
  `Out.fatal` outcome (`Option` for the leaf helpers); recoverable errors
  (`Result<_, ErrOperation>`) are `Out.err`.
* `BTreeMap<usize, Strand>` is modelled as an association list sorted by key;
  insertion keeps the ascending-key order, lookup takes the first match.
* Rust slice indexing `v[i]` (which panics out of range) is modelled with
  total accessors (`List.getD` / `List.take`); every modelled call site only
  indexes within bounds when the `len(junctions) == len(domains)` invariant
  of spec §3 holds, which the theorems assume where relevant.
* The `Cow<str>` sequence data is modelled as `List Char`; the per-domain
  cached data (3-D instantiations, explicit per-domain sequences) is not
  touched by any modelled operation and is omitted.
-/

namespace Ensnano

/-- 2^64, the number of values of `usize`. -/
def USIZE : Nat := 18446744073709551616

/-- `n - 1` on `usize` with release-mode wrapping semantics. -/
def usizePred (n : Nat) : Nat := (n + (USIZE - 1)) % USIZE

/-- Modelled from the spec (§3): a nucleotide position
`{helix, position, forward}`. -/
structure Nucl where
  helix : Nat
  position : Int
  forward : Bool
deriving DecidableEq

/-- Modelled from the spec (§3): the adjacent nucleotide one step toward the
3′ end on the same helix (`position + 1` when `forward`, else `- 1`). -/
def Nucl.prime3 (n : Nucl) : Nucl :=
  { n with position := if n.forward then n.position + 1 else n.position - 1 }

/-- Modelled from the spec (§3): the adjacent nucleotide one step toward the
5′ end on the same helix. -/
def Nucl.prime5 (n : Nucl) : Nucl :=
  { n with position := if n.forward then n.position - 1 else n.position + 1 }

/-- Modelled from the spec (§3): `HelixInterval{helix, start, end (exclusive),
forward}`, a contiguous run of nucleotides on one helix. -/
structure HelixInterval where
  helix : Nat
  start : Int
  end_ : Int
  forward : Bool
deriving DecidableEq

/-- Number of nucleotides of the interval. -/
def HelixInterval.length (i : HelixInterval) : Nat := (i.end_ - i.start).toNat

/-- Modelled from the spec (§3): the nucleotide at the 5′ extremity (which
extremity is 5′ depends on `forward`). -/
def HelixInterval.prime5 (i : HelixInterval) : Nucl :=
  if i.forward then ⟨i.helix, i.start, true⟩ else ⟨i.helix, i.end_ - 1, false⟩

/-- Modelled from the spec (§3): the nucleotide at the 3′ extremity. -/
def HelixInterval.prime3 (i : HelixInterval) : Nucl :=
  if i.forward then ⟨i.helix, i.end_ - 1, true⟩ else ⟨i.helix, i.start, false⟩

/-- The `k`-th nucleotide of the interval counted from its 5′ extremity. -/
def HelixInterval.nuclAt (i : HelixInterval) (k : Nat) : Nucl :=
  if i.forward then ⟨i.helix, i.start + k, true⟩ else ⟨i.helix, i.end_ - 1 - k, false⟩

/-- The nucleotides of the interval in 5′ → 3′ order. -/
def HelixInterval.nuclList (i : HelixInterval) : List Nucl :=
  (List.range i.length).map i.nuclAt

/-- Modelled from the spec (§3, §4.1): the index of `n` in the interval,
counted from the 5′ extremity, when the interval contains `n`. -/
def HelixInterval.hasNucl (i : HelixInterval) (n : Nucl) : Option Nat :=
  if n.helix = i.helix ∧ n.forward = i.forward ∧ i.start ≤ n.position ∧ n.position < i.end_ then
    some (if i.forward then (n.position - i.start).toNat else (i.end_ - 1 - n.position).toNat)
  else none

/-- Modelled from the spec (§3): divide the interval at its `k`-th nucleotide;
the first part holds the nucleotides `0..=k` (from the 5′ side), the second
the rest; defined exactly when both parts are non-empty. -/
def HelixInterval.splitAt (i : HelixInterval) (k : Nat) :
    Option (HelixInterval × HelixInterval) :=
  if k + 1 < i.length then
    if i.forward then
      some (⟨i.helix, i.start, i.start + (k + 1), true⟩,
            ⟨i.helix, i.start + (k + 1), i.end_, true⟩)
    else
      some (⟨i.helix, i.end_ - (k + 1), i.end_, false⟩,
            ⟨i.helix, i.start, i.end_ - (k + 1), false⟩)
  else none

/-- Modelled from the spec (§4.3): `Domain::merge` fuses two intervals into
the single enclosing interval (for directly adjacent intervals this is the
exact concatenation); the receiver keeps its own helix and direction. -/
def HelixInterval.mergeIv (i1 i2 : HelixInterval) : HelixInterval :=
  ⟨i1.helix, min i1.start i2.start, max i1.end_ i2.end_, i1.forward⟩

/-- Modelled from the spec (§3): a strand domain is a helix interval or an
unstructured insertion of `n` synthetic bases. -/
inductive Domain where
  | helixDomain (i : HelixInterval)
  | insertion (n : Nat)
deriving DecidableEq

/-- Number of nucleotides of the domain. -/
def Domain.length : Domain → Nat
  | .helixDomain i => i.length
  | .insertion n => n

/-- The 5′-extremity nucleotide (`None` for insertions). -/
def Domain.prime5_end : Domain → Option Nucl
  | .helixDomain i => some i.prime5
  | .insertion _ => none

/-- The 3′-extremity nucleotide (`None` for insertions). -/
def Domain.prime3_end : Domain → Option Nucl
  | .helixDomain i => some i.prime3
  | .insertion _ => none

/-- The helix the domain lies on (`None` for insertions). -/
def Domain.helix : Domain → Option Nat
  | .helixDomain i => some i.helix
  | .insertion _ => none

/-- Helix and direction of the domain (`None` for insertions); two domains
with equal, defined `half_helix` lie on the same helix in the same
direction. -/
def Domain.half_helix : Domain → Option (Nat × Bool)
  | .helixDomain i => some (i.helix, i.forward)
  | .insertion _ => none

/-- Index of `n` inside the domain from the 5′ side, if present. -/
def Domain.has_nucl (d : Domain) (n : Nucl) : Option Nat :=
  match d with
  | .helixDomain i => i.hasNucl n
  | .insertion _ => none

/-- `Domain::split`: defined only on helix intervals. -/
def Domain.split (d : Domain) (k : Nat) : Option (Domain × Domain) :=
  match d with
  | .helixDomain i => (i.splitAt k).map (fun p => (.helixDomain p.1, .helixDomain p.2))
  | .insertion _ => none

/-- `Domain::merge`: defined (in the source: does not panic) only on a pair
of helix intervals. -/
def Domain.mergeDom : Domain → Domain → Option Domain
  | .helixDomain i1, .helixDomain i2 => some (.helixDomain (i1.mergeIv i2))
  | _, _ => none

/-- The nucleotides of the domain in 5′ → 3′ order (an insertion has no
helix-attached nucleotides). -/
def Domain.nuclList : Domain → List Nucl
  | .helixDomain i => i.nuclList
  | .insertion _ => []

/-- Modelled from the spec (§3): the junction label stored with each domain.
The constructor spelling `UnindentifiedXover` is the source's. -/
inductive DomainJunction where
  | Adjacent
  | Prime3
  | IdentifiedXover (id : Nat)
  | UnindentifiedXover
deriving DecidableEq

/-- Modelled from the spec (§3): a strand. -/
structure Strand where
  domains : List Domain
  junctions : List DomainJunction
  cyclic : Bool
  color : Nat
  sequence : Option (List Char)
deriving DecidableEq

/-- Sum of the lengths of a list of domains. -/
def sumLengths : List Domain → Nat
  | [] => 0
  | d :: r => d.length + sumLengths r

/-- `Strand::length`: total number of nucleotides. -/
def Strand.length (s : Strand) : Nat := sumLengths s.domains

/-- Concatenated nucleotide lists of a list of domains. -/
def flatNucls : List Domain → List Nucl
  | [] => []
  | d :: r => d.nuclList ++ flatNucls r

/-- The ordered nucleotide sequence of the strand (5′ → 3′). -/
def Strand.nuclSequence (s : Strand) : List Nucl := flatNucls s.domains

/-- Whether some domain of the strand contains `n`. -/
def Strand.hasNucl (s : Strand) (n : Nucl) : Bool :=
  s.domains.any (fun d => (d.has_nucl n).isSome)

/-- Replace the last element of a list, if any (`if let Some(j) = last_mut`). -/
def setLast {α : Type} (l : List α) (a : α) : List α :=
  match l with
  | [] => []
  | _ :: _ => l.dropLast ++ [a]

/-- The errors of `ErrOperation` reachable from the modelled operations. -/
inductive ErrOperation where
  | CutInexistingStrand
  | StrandDoesNotExist (id : Nat)
  | MergingSameStrand
  | XoverOnSameHelix
  | NuclDoesNotExist (n : Nucl)
  | XoverBetweenTwoPrime5
  | XoverBetweenTwoPrime3
deriving DecidableEq

/-- Outcome of a fallible operation: success, a recoverable `ErrOperation`,
or a panic of the Rust source (`fatal`). -/
inductive Out (α : Type) where
  | ok (val : α)
  | err (e : ErrOperation)
  | fatal
deriving DecidableEq

/-- The strand map of a design: `BTreeMap<usize, Strand>` as an ascending
association list. Only the strand map is touched by the modelled
operations; the other `Design` fields are irrelevant to them. -/
structure Design where
  strands : List (Nat × Strand)
deriving DecidableEq

/-- `BTreeMap` lookup: first entry with the given key. -/
def strandsFind? : List (Nat × Strand) → Nat → Option Strand
  | [], _ => none
  | (k, v) :: r, i => if i = k then some v else strandsFind? r i

/-- `BTreeMap::insert`: replace the entry or insert at the sorted position. -/
def insertStrand : List (Nat × Strand) → Nat → Strand → List (Nat × Strand)
  | [], k, v => [(k, v)]
  | (k', v') :: r, k, v =>
    if k < k' then (k, v) :: (k', v') :: r
    else if k = k' then (k, v) :: r
    else (k', v') :: insertStrand r k v

/-- `BTreeMap::remove`: drop the first entry with the given key. -/
def eraseKey : List (Nat × Strand) → Nat → List (Nat × Strand)
  | [], _ => []
  | (k', v') :: r, k => if k = k' then r else (k', v') :: eraseKey r k

/-- `keys().max()`. -/
def keysMax? : List (Nat × Strand) → Option Nat
  | [] => none
  | (k, _) :: r =>
    match keysMax? r with
    | none => some k
    | some m => some (max k m)

def Design.find? (d : Design) (i : Nat) : Option Strand := strandsFind? d.strands i

def Design.erase (d : Design) (i : Nat) : Design := ⟨eraseKey d.strands i⟩

def Design.insert (d : Design) (i : Nat) (s : Strand) : Design := ⟨insertStrand d.strands i s⟩

/-- Modelled from the spec: `Design::get_strand_nucl`, the id of the strand
passing through `n` (first strand of the map containing `n`). -/
def getStrandNucl (d : Design) (n : Nucl) : Option Nat :=
  (d.strands.find? (fun p => p.2.hasNucl n)).map (fun p => p.1)

/-- Modelled from the spec (§4.7): `Design::is_strand_end(...).to_opt()`:
`Some(true)` when `n` is the 3′ end of its (non-cyclic) strand, `Some(false)`
when it is the 5′ end, `None` when it is interior or on a cyclic strand. -/
def isStrandEnd (d : Design) (n : Nucl) : Option Bool :=
  match (d.strands.find? (fun p => p.2.hasNucl n)).map (fun p => p.2) with
  | none => none
  | some s =>
    if s.cyclic then none
    else if s.domains.getLast?.bind Domain.prime3_end = some n then some true
    else if s.domains.head?.bind Domain.prime5_end = some n then some false
    else none

/-- Modelled from the spec: `Strand::find_nucl`, the strand-relative position
of `n` counted in nucleotides from the 5′ end (insertions contribute their
counts). -/
def findNuclGo (n : Nucl) : List Domain → Nat → Option Nat
  | [], _ => none
  | d :: r, acc =>
    match d.has_nucl n with
    | some k => some (acc + k)
    | none => findNuclGo n r (acc + d.length)

def Strand.findNucl (s : Strand) (n : Nucl) : Option Nat := findNuclGo n s.domains 0

/-- `junction` (controller.rs:1570): the appropriate junction between two
`HelixInterval`s. -/
def junction (prime5 prime3 : HelixInterval) : DomainJunction :=
  let prime5_nucl := prime5.prime3
  let prime3_nucl := prime3.prime5
  if prime3_nucl = prime5_nucl.prime3 then DomainJunction.Adjacent
  else DomainJunction.UnindentifiedXover

/-- Accumulated state of the domain scan of `split_strand`
(controller.rs:891–941): `i`, `prim5_domains`, `len_prim5`, `domains`
(the split pieces), `on_3prime`, `prime5_junctions`, `prime3_junctions`. -/
structure SplitScanState where
  i : Nat
  prim5Domains : List Domain
  lenPrim5 : Nat
  pieces : Option (Domain × Domain)
  on3prime : Bool
  prime5Junctions : List DomainJunction
  prime3Junctions : List DomainJunction
deriving DecidableEq

/-- The `for (d_id, domain)` loop of `split_strand` (controller.rs:904–941).
Arguments after the junction list: remaining domains, `d_id`, `prev_helix`,
and the accumulators (domain and junction accumulators are kept reversed). -/
def splitScanGo (nucl : Nucl) (forceEnd : Option Bool) (allJ : List DomainJunction) :
    List Domain → Nat → Option Nat → List Domain → Nat → List DomainJunction →
    SplitScanState
  | [], dId, _, accD, accLen, accJ =>
    { i := dId, prim5Domains := accD.reverse, lenPrim5 := accLen, pieces := none,
      on3prime := forceEnd.getD false, prime5Junctions := accJ.reverse,
      prime3Junctions := [] }
  | d :: rest, dId, prevHelix, accD, accLen, accJ =>
    if d.prime5_end = some nucl ∧ prevHelix ≠ d.helix ∧ forceEnd ≠ some false then
      { i := dId, prim5Domains := accD.reverse, lenPrim5 := accLen, pieces := none,
        on3prime := true,
        prime5Junctions := setLast accJ.reverse DomainJunction.Prime3,
        prime3Junctions := [] }
    else if d.prime3_end = some nucl ∧ forceEnd ≠ some true then
      { i := dId + 1, prim5Domains := (d :: accD).reverse,
        lenPrim5 := accLen + d.length, pieces := none,
        on3prime := forceEnd.getD false,
        prime5Junctions := (DomainJunction.Prime3 :: accJ).reverse,
        prime3Junctions := [] }
    else
      match d.has_nucl nucl with
      | some n =>
        let n' := if forceEnd = some true then usizePred n else n
        { i := dId, prim5Domains := accD.reverse, lenPrim5 := accLen + n',
          pieces := d.split n', on3prime := forceEnd.getD false,
          prime5Junctions := (DomainJunction.Prime3 :: accJ).reverse,
          prime3Junctions := [allJ.getD dId DomainJunction.Prime3] }
      | none =>
        splitScanGo nucl forceEnd allJ rest (dId + 1) d.helix (d :: accD)
          (accLen + d.length) (allJ.getD dId DomainJunction.Prime3 :: accJ)

/-- The two halves produced by `split_strand` on a non-cyclic strand
(controller.rs:891–987): scan, then distribute pieces and remaining
domains/junctions, then split the sequence data. -/
structure SplitParts where
  scan : SplitScanState
  strand5 : Strand
  strand3 : Strand
deriving DecidableEq

def splitStrandParts (strand : Strand) (nucl : Nucl) (forceEnd : Option Bool) :
    SplitParts :=
  let st := splitScanGo nucl forceEnd strand.junctions strand.domains 0 none [] 0 []
  let p5doms := match st.pieces with
    | some ab => st.prim5Domains ++ [ab.1]
    | none => st.prim5Domains
  let iF := match st.pieces with
    | some _ => st.i + 1
    | none => st.i
  let p3doms := (match st.pieces with | some ab => [ab.2] | none => []) ++
    strand.domains.drop iF
  let p3juncs := st.prime3Junctions ++
    ((strand.junctions.take strand.domains.length).drop iF)
  { scan := st,
    strand5 := { domains := p5doms, junctions := st.prime5Junctions, cyclic := false,
                 color := strand.color,
                 sequence := strand.sequence.map (List.take st.lenPrim5) },
    strand3 := { domains := p3doms, junctions := p3juncs, cyclic := false,
                 color := strand.color,
                 sequence := strand.sequence.map (List.drop st.lenPrim5) } }

/-- The scan loop of `break_cycle` (controller.rs:1023–1044), returning
`(last_dom, replace_last_dom)`; `total` is the length of the full domain
list. The third branch does not break out of the loop. -/
def breakCycleScanGo (nucl : Nucl) (forceEnd : Option Bool) (total : Nat) :
    List Domain → Nat → Option Nat → Option Nat → Option (Domain × Domain) →
    Option Nat × Option (Domain × Domain)
  | [], _, _, lastDom, repl => (lastDom, repl)
  | d :: rest, i, prevHelix, lastDom, repl =>
    if d.prime5_end = some nucl ∧ prevHelix ≠ d.helix ∧ forceEnd ≠ some false then
      (some (if i ≠ 0 then i - 1 else total - 1), repl)
    else if d.prime3_end = some nucl ∧ forceEnd ≠ some true then
      (some i, repl)
    else
      match d.has_nucl nucl with
      | some n =>
        let n' := if forceEnd = some true then usizePred n else n
        breakCycleScanGo nucl forceEnd total rest (i + 1) d.helix (some i) (d.split n')
      | none =>
        breakCycleScanGo nucl forceEnd total rest (i + 1) d.helix lastDom repl

/-- `break_cycle` (controller.rs:1016–1071): cut a cyclic strand open at
`nucl`, rotating its domain list; `none` models the
`expect("Could not find nucl in strand")` panic. -/
def breakCycle (strand : Strand) (nucl : Nucl) (forceEnd : Option Bool) :
    Option Strand :=
  match breakCycleScanGo nucl forceEnd strand.domains.length strand.domains 0 none
      none none with
  | (none, _) => none
  | (some lastDom, repl) =>
    let js := strand.junctions
    let part1D : List Domain := match repl with
      | some ab => [ab.2]
      | none => []
    let part1J : List DomainJunction := match repl with
      | some _ => [js.getD lastDom DomainJunction.Prime3]
      | none => []
    let midD := strand.domains.drop (lastDom + 1)
    let midJ := (js.take strand.domains.length).drop (lastDom + 1)
    let preD := strand.domains.take lastDom
    let preJ := js.take lastDom
    let lastD : List Domain := match repl with
      | some ab => [ab.1]
      | none => [strand.domains.getD lastDom (Domain.insertion 0)]
    some { strand with
      domains := part1D ++ midD ++ preD ++ lastD,
      junctions := part1J ++ midJ ++ preJ ++ [DomainJunction.Prime3],
      cyclic := false }

/-- `split_strand` (controller.rs:870–1008): split the strand containing
`nucl`, giving a freshly allocated id to one half, and return the id of the
newly created strand. -/
def splitStrand (design : Design) (nucl : Nucl) (forceEnd : Option Bool) :
    Out (Design × Nat) :=
  match getStrandNucl design nucl with
  | none => .err .CutInexistingStrand
  | some id =>
    match design.find? id with
    | none => .fatal
    | some strand =>
      let d0 := design.erase id
      if strand.cyclic then
        match breakCycle strand nucl forceEnd with
        | none => .fatal
        | some ns => .ok (d0.insert id ns, id)
      else if strand.length ≤ 1 then .err .CutInexistingStrand
      else
        let p := splitStrandParts strand nucl forceEnd
        let newId := max ((keysMax? d0.strands).getD 0) id + 1
        let ids := if !p.scan.on3prime then (id, newId) else (newId, id)
        let d1 := if 0 < p.strand5.domains.length then d0.insert ids.1 p.strand5 else d0
        let d2 := if 0 < p.strand3.domains.length then d1.insert ids.2 p.strand3 else d1
        .ok (d2, newId)

/-- The domain/junction concatenation of `merge_strands`
(controller.rs:1126–1159): fuse the seam pair when the two `half_helix`
values are equal and defined, otherwise mark the seam `UnindentifiedXover`. -/
def mergeCore (s5 s3 : Strand) : Out (List Domain × List DomainJunction) :=
  let doms0 := s5.domains
  let juncs0 := s5.junctions.take s5.domains.length
  let lastH := doms0.getLast?.bind Domain.half_helix
  let nextH := s3.domains.head?.bind Domain.half_helix
  if lastH = nextH ∧ lastH.isSome then
    match doms0.getLast?, s3.domains.head? with
    | some dl, some dh =>
      match dl.mergeDom dh with
      | some m => .ok (doms0.dropLast ++ [m] ++ s3.domains.drop 1,
                       juncs0.dropLast ++ s3.junctions)
      | none => .fatal
    | _, _ => .fatal
  else
    .ok (doms0 ++ s3.domains,
         setLast juncs0 DomainJunction.UnindentifiedXover ++ s3.junctions)

/-- `merge_strands` (controller.rs:1111–1187): concatenate strand `prime3`
onto strand `prime5`, which keeps its id. -/
def mergeStrands (design : Design) (prime5 prime3 : Nat) : Out Design :=
  if prime5 ≠ prime3 then
    match design.find? prime5 with
    | none => .err (.StrandDoesNotExist prime5)
    | some s5 =>
      let d1 := design.erase prime5
      match d1.find? prime3 with
      | none => .err (.StrandDoesNotExist prime3)
      | some s3 =>
        let d2 := d1.erase prime3
        match mergeCore s5 s3 with
        | .fatal => .fatal
        | .err e => .err e
        | .ok dj =>
          let seq := match s5.sequence, s3.sequence with
            | some a, some b => some (a ++ b)
            | some a, none => some a
            | none, some b => some b
            | none, none => none
          .ok (d2.insert prime5
            { domains := dj.1, junctions := dj.2, cyclic := false,
              color := s5.color, sequence := seq })
  else .err .MergingSameStrand

/-- `make_cycle` (controller.rs:1190–1247): set or clear the `cyclic` flag,
merging seam insertions and recomputing the seam junction; `fatal` models the
`unwrap` panics and the `Invariant Violated: SaneDomains` panic. -/
def makeCycle (design : Design) (strandId : Nat) (cyclic : Bool) : Out Design :=
  match design.find? strandId with
  | none => .err (.StrandDoesNotExist strandId)
  | some s0 =>
    let s1 := { s0 with cyclic := cyclic }
    if cyclic then
      let s2 := match s1.domains.head?, s1.domains.getLast? with
        | some (.insertion n1), some (.insertion n2) =>
          { s1 with domains := (setLast s1.domains (Domain.insertion (n1 + n2))).drop 1,
                    junctions := s1.junctions.drop 1 }
        | _, _ => s1
      let skipLast : Nat := match s2.domains.getLast? with
        | some (.insertion _) => 1
        | _ => 0
      let skipFirst : Nat := match s2.domains.head? with
        | some (.insertion _) => 1
        | _ => 0
      match (s2.domains.reverse.drop skipLast).head?, s2.domains.get? skipFirst with
      | some (.helixDomain i1), some (.helixDomain i2) =>
        match s2.junctions with
        | [] => .fatal
        | _ :: _ =>
          .ok (design.insert strandId
            { s2 with junctions := setLast s2.junctions (junction i1 i2) })
      | _, _ => .fatal
    else
      match s1.junctions with
      | [] => .fatal
      | _ :: _ =>
        .ok (design.insert strandId
          { s1 with junctions := setLast s1.junctions DomainJunction.Prime3 })

/-- `cross_cut` (controller.rs:1283–1339): cut the target strand at `nucl`
and make a crossover from the source strand to the part containing `nucl`. -/
def crossCut (design : Design) (sourceStrand targetStrand : Nat) (nucl : Nucl)
    (target3prime : Bool) : Out Design :=
  let newId := match keysMax? design.strands with
    | some n => n + 1
    | none => 0
  match design.find? targetStrand with
  | none => .err (.StrandDoesNotExist targetStrand)
  | some target =>
    let wasCyclic := target.cyclic
    match splitStrand design nucl (some target3prime) with
    | .err e => .err e
    | .fatal => .fatal
    | .ok (d1, _) =>
      if !wasCyclic ∧ sourceStrand ≠ targetStrand then
        if target3prime then
          match d1.find? targetStrand with
          | none => .err (.StrandDoesNotExist targetStrand)
          | some half0 =>
            let da := d1.erase targetStrand
            match da.find? newId with
            | none => .err (.StrandDoesNotExist newId)
            | some half1 =>
              let db := da.erase newId
              let dc := (db.insert newId half0).insert targetStrand half1
              mergeStrands dc sourceStrand newId
        else
          match d1.find? sourceStrand with
          | none => .err (.StrandDoesNotExist sourceStrand)
          | some half0 =>
            let da := d1.erase sourceStrand
            match da.find? newId with
            | none => .err (.StrandDoesNotExist newId)
            | some half1 =>
              let db := da.erase newId
              let dc := (db.insert newId half0).insert sourceStrand half1
              mergeStrands dc targetStrand newId
      else if sourceStrand = targetStrand then
        makeCycle d1 sourceStrand true
      else
        if target3prime then mergeStrands d1 sourceStrand targetStrand
        else mergeStrands d1 targetStrand sourceStrand

/-- `general_cross_over` (controller.rs:1341–1459): create a crossover
between two nucleotides, dispatching on whether each one is a free strand
end. -/
def generalCrossOver (design : Design) (sourceNucl targetNucl : Nucl) : Out Design :=
  if sourceNucl.helix = targetNucl.helix then .err .XoverOnSameHelix
  else
    match getStrandNucl design sourceNucl with
    | none => .err (.NuclDoesNotExist sourceNucl)
    | some sourceId =>
      match getStrandNucl design targetNucl with
      | none => .err (.NuclDoesNotExist targetNucl)
      | some targetId =>
        match design.find? sourceId with
        | none => .err (.StrandDoesNotExist sourceId)
        | some source =>
          match design.find? targetId with
          | none => .err (.StrandDoesNotExist targetId)
          | some _target =>
            match isStrandEnd design sourceNucl, isStrandEnd design targetNucl with
            | some true, some true => .err .XoverBetweenTwoPrime3
            | some false, some false => .err .XoverBetweenTwoPrime5
            | some true, some false =>
              if sourceId = targetId then makeCycle design sourceId true
              else mergeStrands design sourceId targetId
            | some false, some true =>
              if sourceId = targetId then makeCycle design targetId true
              else mergeStrands design targetId sourceId
            | some b, none =>
              if sourceNucl.helix ≠ targetNucl.helix then
                crossCut design sourceId targetId targetNucl b
              else .ok design
            | none, some b =>
              if sourceNucl.helix ≠ targetNucl.helix then
                crossCut design targetId sourceId sourceNucl b
              else .ok design
            | none, none =>
              if sourceNucl.helix ≠ targetNucl.helix then
                if sourceId ≠ targetId then
                  match splitStrand design sourceNucl none with
                  | .err e => .err e
                  | .fatal => .fatal
                  | .ok (d1, _) => crossCut d1 sourceId targetId targetNucl true
                else if source.cyclic then
                  match splitStrand design sourceNucl (some false) with
                  | .err e => .err e
                  | .fatal => .fatal
                  | .ok (d1, _) => crossCut d1 sourceId targetId targetNucl true
                else
                  match source.findNucl sourceNucl with
                  | none => .err (.NuclDoesNotExist sourceNucl)
                  | some pos1 =>
                    match source.findNucl targetNucl with
                    | none => .err (.NuclDoesNotExist targetNucl)
                    | some pos2 =>
                      if pos1 > pos2 then
                        match splitStrand design sourceNucl (some false) with
                        | .err e => .err e
                        | .fatal => .fatal
                        | .ok (d1, _) => crossCut d1 sourceId targetId targetNucl true
                      else
                        match splitStrand design sourceNucl (some false) with
                        | .err e => .err e
                        | .fatal => .fatal
                        | .ok (d1, newId) => crossCut d1 sourceId newId targetNucl true
              else .ok design

/-- Total nucleotide count of a design: `sum(domain lengths)` over all
strands. -/
def Design.totalLength (d : Design) : Nat :=
  (d.strands.map (fun p => p.2.length)).sum

end Ensnano

namespace Ensnano

/-! ## Shared association-list lemmas for the strand map -/

theorem find?_insertStrand_self (l : List (Nat × Strand)) (k : Nat) (v : Strand) :
    strandsFind? (insertStrand l k v) k = some v := by
  induction l with
  | nil => simp [insertStrand, strandsFind?]
  | cons p r ih =>
    by_cases h1 : k < p.1
    · simp [insertStrand, strandsFind?, h1]
    · by_cases h2 : k = p.1
      · simp [insertStrand, strandsFind?, h1, h2]
      · simpa [insertStrand, strandsFind?, h1, h2] using ih

theorem find?_insertStrand_ne (l : List (Nat × Strand)) (k : Nat) (v : Strand)
    (i : Nat) (h : i ≠ k) :
    strandsFind? (insertStrand l k v) i = strandsFind? l i := by
  induction l with
  | nil => simp [insertStrand, strandsFind?, h]
  | cons p r ih =>
    by_cases h1 : k < p.1
    · simp [insertStrand, strandsFind?, h1, h]
    · by_cases h2 : k = p.1
      · subst h2; simp [insertStrand, strandsFind?, h1, strandsFind?, h]
      · by_cases h3 : i = p.1
        · simp [insertStrand, strandsFind?, h1, h2, h3]
        · simpa [insertStrand, strandsFind?, h1, h2, h3] using ih

theorem find?_eraseKey_ne (l : List (Nat × Strand)) (k i : Nat) (h : i ≠ k) :
    strandsFind? (eraseKey l k) i = strandsFind? l i := by
  induction l with
  | nil => simp [eraseKey, strandsFind?]
  | cons p r ih =>
    by_cases h1 : k = p.1
    · subst h1; simp [eraseKey, strandsFind?, h]
    · by_cases h3 : i = p.1
      · simp [eraseKey, strandsFind?, h1, h3]
      · simpa [eraseKey, strandsFind?, h1, h3] using ih

theorem find?_le_keysMax (l : List (Nat × Strand)) (k : Nat) (v : Strand)
    (h : strandsFind? l k = some v) : k ≤ (keysMax? l).getD 0 := by
  induction l with
  | nil => simp [strandsFind?] at h
  | cons p r ih =>
    by_cases h1 : k = p.1
    · subst h1
      cases hr : keysMax? r with
      | none => simp [keysMax?, hr]
      | some m => simp [keysMax?, hr]
    · simp only [strandsFind?, if_neg h1] at h
      have := ih h
      cases hr : keysMax? r with
      | none => simp [hr] at this; omega
      | some m => simp [hr] at this ⊢; simp [keysMax?, hr]; omega

theorem keysMax_eraseKey (l : List (Nat × Strand)) (k : Nat) (v : Strand)
    (h : strandsFind? l k = some v) :
    max ((keysMax? (eraseKey l k)).getD 0) k = (keysMax? l).getD 0 := by
  induction l with
  | nil => simp [strandsFind?] at h
  | cons p r ih =>
    by_cases h1 : k = p.1
    · subst h1
      simp only [eraseKey, if_pos rfl]
      cases hr : keysMax? r with
      | none => simp [keysMax?, hr]
      | some m => simp [keysMax?, hr]; omega
    · simp only [strandsFind?, if_neg h1] at h
      have hne : ¬ (k = p.1) := h1
      simp only [eraseKey, if_neg hne]
      have := ih h
      cases hr : keysMax? (eraseKey r k) with
      | none =>
        simp [hr] at this
        cases hr2 : keysMax? r with
        | none => simp [hr2] at this; simp [keysMax?, hr, hr2]; omega
        | some m2 => simp [hr2] at this; simp [keysMax?, hr, hr2]; omega
      | some m =>
        simp [hr] at this
        cases hr2 : keysMax? r with
        | none => simp [hr2] at this; simp [keysMax?, hr, hr2]; omega
        | some m2 => simp [hr2] at this; simp [keysMax?, hr, hr2]; omega

theorem length_eraseKey (l : List (Nat × Strand)) (k : Nat) (v : Strand)
    (h : strandsFind? l k = some v) : (eraseKey l k).length + 1 = l.length := by
  induction l with
  | nil => simp [strandsFind?] at h
  | cons p r ih =>
    by_cases h1 : k = p.1
    · simp [eraseKey, h1]
    · simp only [strandsFind?, if_neg h1] at h
      simp only [eraseKey, if_neg h1, List.length_cons]
      rw [← ih h]

theorem length_insertStrand_new (l : List (Nat × Strand)) (k : Nat) (v : Strand)
    (h : strandsFind? l k = none) : (insertStrand l k v).length = l.length + 1 := by
  induction l with
  | nil => simp [insertStrand]
  | cons p r ih =>
    by_cases h1 : k < p.1
    · simp [insertStrand, h1]
    · by_cases h2 : k = p.1
      · simp [strandsFind?, h2] at h
      · simp only [strandsFind?, if_neg h2] at h
        simp only [insertStrand, if_neg h1, if_neg h2, List.length_cons]
        rw [ih h]

/-- Ascending-key order of the strand map (the `BTreeMap` invariant). -/
def sortedKeysB : List (Nat × Strand) → Bool
  | [] => true
  | [_] => true
  | a :: b :: r => (decide (a.1 < b.1)) && sortedKeysB (b :: r)

theorem sortedKeysB_tail {p : Nat × Strand} {r : List (Nat × Strand)}
    (h : sortedKeysB (p :: r) = true) : sortedKeysB r = true := by
  cases r with
  | nil => rfl
  | cons q t => simp [sortedKeysB] at h; simp [h.2]

theorem sortedKeysB_head_lt {p : Nat × Strand} {r : List (Nat × Strand)}
    (h : sortedKeysB (p :: r) = true) : ∀ q ∈ r, p.1 < q.1 := by
  induction r generalizing p with
  | nil => intro q hq; simp at hq
  | cons q t ih =>
    intro x hx
    simp [sortedKeysB] at h
    rw [List.mem_cons] at hx
    rcases hx with hx | hx
    · subst hx; exact h.1
    · exact Nat.lt_trans h.1 (ih h.2 x hx)

theorem find?_none_of_keys_gt (l : List (Nat × Strand)) (k : Nat)
    (h : ∀ q ∈ l, k < q.1) : strandsFind? l k = none := by
  induction l with
  | nil => rfl
  | cons p r ih =>
    have h1 : k < p.1 := h p (by simp)
    have : ¬ (k = p.1) := by omega
    simp only [strandsFind?, if_neg this]
    exact ih (fun q hq => h q (by simp [hq]))

theorem find?_eraseKey_self (l : List (Nat × Strand)) (k : Nat)
    (hs : sortedKeysB l = true) (v : Strand) (h : strandsFind? l k = some v) :
    strandsFind? (eraseKey l k) k = none := by
  induction l with
  | nil => simp [strandsFind?] at h
  | cons p r ih =>
    by_cases h1 : k = p.1
    · subst h1
      simp only [eraseKey, if_pos rfl]
      exact find?_none_of_keys_gt r p.1 (sortedKeysB_head_lt hs)
    · simp only [strandsFind?, if_neg h1] at h
      simp only [eraseKey, if_neg h1, strandsFind?, if_neg h1]
      exact ih (sortedKeysB_tail hs) h

/-! ## Example designs used by the concrete theorems -/

def mkStrand (doms : List Domain) (js : List DomainJunction) (cyc : Bool) : Strand :=
  { domains := doms, junctions := js, cyclic := cyc, color := 0, sequence := none }

/-- Two strands on the same helix, same direction, with a two-nucleotide gap
between them. -/
def exGap : Design :=
  ⟨[(0, mkStrand [Domain.helixDomain ⟨0, 0, 3, true⟩] [DomainJunction.Prime3] false),
    (1, mkStrand [Domain.helixDomain ⟨0, 5, 8, true⟩] [DomainJunction.Prime3] false)]⟩

def exGapMerged : Design :=
  ⟨[(0, mkStrand [Domain.helixDomain ⟨0, 0, 8, true⟩] [DomainJunction.Prime3] false)]⟩

/-! ## Claim theorems (first group) -/

/-- C7: for every design and every pair of nucleotides on the same helix,
`general_cross_over` returns the error `XoverOnSameHelix`, regardless of
strand membership or existence of the nucleotides. -/
theorem claim7_same_helix_rejection (design : Design) (source target : Nucl)
    (h : source.helix = target.helix) :
    generalCrossOver design source target = .err .XoverOnSameHelix := by
  unfold generalCrossOver
  simp [h]

theorem claim7_same_helix_rejection_witness :
    (⟨0, 0, true⟩ : Nucl).helix = (⟨0, 5, false⟩ : Nucl).helix ∧
    generalCrossOver ⟨[]⟩ ⟨0, 0, true⟩ ⟨0, 5, false⟩ = .err .XoverOnSameHelix :=
  ⟨rfl, claim7_same_helix_rejection ⟨[]⟩ ⟨0, 0, true⟩ ⟨0, 5, false⟩ rfl⟩

/-- C10: splitting a linear strand at the 5′ extremity of its first domain
(with `force_end = None`) succeeds, drops the empty 5′ half, and returns the
freshly allocated id &mdash; which is not a key of the resulting strand map. -/
theorem claim10_returned_id_not_in_map :
    splitStrand ⟨[(0, mkStrand [Domain.helixDomain ⟨0, 0, 3, true⟩]
        [DomainJunction.Prime3] false)]⟩ ⟨0, 0, true⟩ none =
      .ok (⟨[(0, mkStrand [Domain.helixDomain ⟨0, 0, 3, true⟩]
        [DomainJunction.Prime3] false)]⟩, 1) ∧
    (⟨[(0, mkStrand [Domain.helixDomain ⟨0, 0, 3, true⟩]
        [DomainJunction.Prime3] false)]⟩ : Design).find? 1 = none := by
  constructor
  · rfl
  · rfl

/-- C4 (counterexample): with `a = [0,3)` and `b = [3,6)` forward on helix 0,
`junction a b` is `Adjacent`, although `a.prime3_end()` is not the 5′→3′
successor of `b.prime5_end()` (the successor relation runs the other way), so
the claimed `UnidentifiedXover otherwise` clause is violated. -/
theorem claim4_cex :
    junction ⟨0, 0, 3, true⟩ ⟨0, 3, 6, true⟩ = DomainJunction.Adjacent ∧
    HelixInterval.prime3 ⟨0, 0, 3, true⟩ ≠
      Nucl.prime3 (HelixInterval.prime5 ⟨0, 3, 6, true⟩) := by
  constructor
  · rfl
  · decide

/-- C4 (amended): `junction a b` is `Adjacent` exactly when `b.prime5_end()`
is the natural 5′→3′ successor of `a.prime3_end()`; in every other case it is
`UnidentifiedXover`, and it never returns `Prime3` or `IdentifiedXover`. -/
theorem claim4_junction_classification (a b : HelixInterval) :
    (junction a b = DomainJunction.Adjacent ↔ b.prime5 = a.prime3.prime3) ∧
    (junction a b = DomainJunction.Adjacent ∨
     junction a b = DomainJunction.UnindentifiedXover) := by
  unfold junction
  by_cases h : b.prime5 = a.prime3.prime3 <;> simp [h]

/-- C2 (failing input): `merge_strands` on two strands of the same helix and
direction separated by a gap fuses the seam into the enclosing interval,
growing the total nucleotide count from 6 to 8; conservation fails. -/
theorem claim2_merge_gap_creates_nucleotides :
    exGap.totalLength = 6 ∧
    mergeStrands exGap 0 1 = .ok exGapMerged ∧
    exGapMerged.totalLength = 8 := by
  refine ⟨rfl, rfl, rfl⟩

/-- C3 (counterexample): the seam domains of `exGap` are `HelixInterval`s on
the same helix but not directly adjacent, yet `merge_strands` fuses them into
a single domain and collapses the junctions (rather than marking the seam
`UnidentifiedXover`): the fuse condition of the source checks only
`half_helix` equality, never adjacency. -/
theorem claim3_cex :
    (HelixInterval.prime5 ⟨0, 5, 8, true⟩ ≠
      Nucl.prime3 (HelixInterval.prime3 ⟨0, 0, 3, true⟩)) ∧
    mergeStrands exGap 0 1 = .ok exGapMerged ∧
    (exGapMerged.find? 0).map (fun s => (s.domains, s.junctions)) =
      some ([Domain.helixDomain ⟨0, 0, 8, true⟩], [DomainJunction.Prime3]) := by
  refine ⟨by decide, rfl, rfl⟩

end Ensnano

namespace Ensnano

/-- A non-cyclic strand whose second domain starts (in 5′ → 3′ order) at the
position where the cut nucleotide sits at in-domain index 0, while the
previous domain lies on the same helix (opposite direction). -/
def exWrapStrand : Strand :=
  mkStrand [Domain.helixDomain ⟨0, 0, 3, true⟩, Domain.helixDomain ⟨0, 0, 3, false⟩]
    [DomainJunction.UnindentifiedXover, DomainJunction.Prime3] false

def exWrap : Design := ⟨[(0, exWrapStrand)]⟩

/-- C9 (failing input): splitting `exWrap` at the 5′ extremity of its second
domain with `force_end = Some(true)` underflows the `n - 1` of the source
(in-domain index 0); both produced strands then carry one more junction than
domains, breaking the `len(junctions) == len(domains)` invariant although the
input strand satisfied it. -/
theorem claim9_junction_invariant_broken :
    exWrapStrand.junctions.length = exWrapStrand.domains.length ∧
    splitStrand exWrap ⟨0, 2, false⟩ (some true) =
      .ok (⟨[(0, mkStrand [Domain.helixDomain ⟨0, 0, 3, false⟩]
               [DomainJunction.Prime3, DomainJunction.Prime3] false),
             (1, mkStrand [Domain.helixDomain ⟨0, 0, 3, true⟩]
               [DomainJunction.UnindentifiedXover, DomainJunction.Prime3] false)]⟩, 1) ∧
    ((⟨[(0, mkStrand [Domain.helixDomain ⟨0, 0, 3, false⟩]
          [DomainJunction.Prime3, DomainJunction.Prime3] false),
        (1, mkStrand [Domain.helixDomain ⟨0, 0, 3, true⟩]
          [DomainJunction.UnindentifiedXover, DomainJunction.Prime3] false)]⟩ : Design).find? 0).map
        (fun s => (s.domains.length, s.junctions.length)) = some (1, 2) := by
  refine ⟨rfl, rfl, rfl⟩

/-- The seam-fuse condition of `merge_strands`: the `half_helix` values of the
last domain of the 5′ strand and the first domain of the 3′ strand are equal
and defined. -/
def fuseCond (s5 s3 : Strand) : Prop :=
  (s5.domains.getLast?.bind Domain.half_helix =
    s3.domains.head?.bind Domain.half_helix) ∧
  (s5.domains.getLast?.bind Domain.half_helix).isSome

instance (s5 s3 : Strand) : Decidable (fuseCond s5 s3) := by
  unfold fuseCond; infer_instance

theorem mergeCore_spec (s5 s3 : Strand)
    (hj5 : s5.junctions.length = s5.domains.length) :
    ∃ dj, mergeCore s5 s3 = .ok dj ∧
      (if fuseCond s5 s3 then
        ∃ dl dh m, s5.domains.getLast? = some dl ∧ s3.domains.head? = some dh ∧
          dl.mergeDom dh = some m ∧
          dj.1 = s5.domains.dropLast ++ [m] ++ s3.domains.drop 1 ∧
          dj.2 = s5.junctions.dropLast ++ s3.junctions
      else
        dj.1 = s5.domains ++ s3.domains ∧
        dj.2 = setLast s5.junctions DomainJunction.UnindentifiedXover ++ s3.junctions) := by
  have htake : s5.junctions.take s5.domains.length = s5.junctions := by
    rw [← hj5]; simp
  by_cases hc : fuseCond s5 s3
  · have hceq := hc.1
    have hcsome := hc.2
    obtain ⟨dl, hdl⟩ : ∃ dl, s5.domains.getLast? = some dl := by
      cases h : s5.domains.getLast? with
      | none => rw [h] at hcsome; simp at hcsome
      | some dl => exact ⟨dl, rfl⟩
    rw [hdl] at hcsome hceq
    simp only [Option.some_bind] at hcsome hceq
    obtain ⟨hh, hhh⟩ : ∃ hh, dl.half_helix = some hh := by
      cases h : dl.half_helix with
      | none => rw [h] at hcsome; simp at hcsome
      | some hh => exact ⟨hh, rfl⟩
    rw [hhh] at hceq
    obtain ⟨dh, hdh⟩ : ∃ dh, s3.domains.head? = some dh := by
      cases h : s3.domains.head? with
      | none => rw [h] at hceq; simp at hceq
      | some dh => exact ⟨dh, rfl⟩
    rw [hdh] at hceq
    simp only [Option.some_bind] at hceq
    have hhh2 : dh.half_helix = some hh := hceq.symm
    obtain ⟨i1, hi1⟩ : ∃ i1, dl = Domain.helixDomain i1 := by
      cases dl with
      | helixDomain i => exact ⟨i, rfl⟩
      | insertion n => simp [Domain.half_helix] at hhh
    obtain ⟨i2, hi2⟩ : ∃ i2, dh = Domain.helixDomain i2 := by
      cases dh with
      | helixDomain i => exact ⟨i, rfl⟩
      | insertion n => simp [Domain.half_helix] at hhh2
    refine ⟨(s5.domains.dropLast ++ [Domain.helixDomain (i1.mergeIv i2)] ++ s3.domains.drop 1,
             s5.junctions.dropLast ++ s3.junctions), ?_, ?_⟩
    · subst hi1; subst hi2
      simp only [mergeCore, hdl, hdh, htake, Option.some_bind, hhh, hhh2]
      simp [Domain.mergeDom]
    · rw [if_pos hc]
      exact ⟨dl, dh, Domain.helixDomain (i1.mergeIv i2), hdl, hdh,
        by rw [hi1, hi2]; rfl, rfl, rfl⟩
  · refine ⟨(s5.domains ++ s3.domains,
             setLast s5.junctions DomainJunction.UnindentifiedXover ++ s3.junctions),
      ?_, ?_⟩
    · have hc2 : ¬ ((s5.domains.getLast?.bind Domain.half_helix =
          s3.domains.head?.bind Domain.half_helix) ∧
          (s5.domains.getLast?.bind Domain.half_helix).isSome) := hc
      simp only [mergeCore, if_neg hc2, htake]
    · rw [if_neg hc]
      exact ⟨rfl, rfl⟩

/-- C3 (amended): for distinct existing ids `prime5`, `prime3` (with the
junction-length invariant on the 5′ strand), `merge_strands` fuses the last
domain of `prime5` and the first domain of `prime3` into a single domain
(removing one junction) if and only if both are `HelixInterval`s on the same
helix with the same direction (equal, defined `half_helix`) — direct
adjacency is not required; in every other case the seam junction is set to
`UnidentifiedXover`. -/
theorem claim3_merge_seam_rule (design : Design) (p5 p3 : Nat) (s5 s3 : Strand)
    (hne : p5 ≠ p3)
    (h5 : design.find? p5 = some s5)
    (h3 : (design.erase p5).find? p3 = some s3)
    (hj5 : s5.junctions.length = s5.domains.length) :
    ∃ s' : Strand,
      mergeStrands design p5 p3 = .ok (((design.erase p5).erase p3).insert p5 s') ∧
      (if fuseCond s5 s3 then
        ∃ dl dh m, s5.domains.getLast? = some dl ∧ s3.domains.head? = some dh ∧
          dl.mergeDom dh = some m ∧
          s'.domains = s5.domains.dropLast ++ [m] ++ s3.domains.drop 1 ∧
          s'.junctions = s5.junctions.dropLast ++ s3.junctions
      else
        s'.domains = s5.domains ++ s3.domains ∧
        s'.junctions = setLast s5.junctions DomainJunction.UnindentifiedXover ++
          s3.junctions) := by
  obtain ⟨dj, hmc, hspec⟩ := mergeCore_spec s5 s3 hj5
  refine ⟨{ domains := dj.1, junctions := dj.2, cyclic := false, color := s5.color,
            sequence := match s5.sequence, s3.sequence with
              | some a, some b => some (a ++ b)
              | some a, none => some a
              | none, some b => some b
              | none, none => none }, ?_, ?_⟩
  · unfold mergeStrands
    rw [if_pos hne]
    simp only [h5, h3, hmc]
  · by_cases hc : fuseCond s5 s3
    · rw [if_pos hc]; rw [if_pos hc] at hspec
      obtain ⟨dl, dh, m, h1, h2, h3, h4, h5⟩ := hspec
      exact ⟨dl, dh, m, h1, h2, h3, h4, h5⟩
    · rw [if_neg hc]; rw [if_neg hc] at hspec
      exact hspec

theorem claim3_merge_seam_rule_witness :
    ((0 : Nat) ≠ 1 ∧
     exGap.find? 0 = some (mkStrand [Domain.helixDomain ⟨0, 0, 3, true⟩]
       [DomainJunction.Prime3] false) ∧
     (exGap.erase 0).find? 1 = some (mkStrand [Domain.helixDomain ⟨0, 5, 8, true⟩]
       [DomainJunction.Prime3] false)) ∧
    ∃ s' : Strand,
      mergeStrands exGap 0 1 = .ok (((exGap.erase 0).erase 1).insert 0 s') ∧
      (if fuseCond (mkStrand [Domain.helixDomain ⟨0, 0, 3, true⟩]
            [DomainJunction.Prime3] false)
          (mkStrand [Domain.helixDomain ⟨0, 5, 8, true⟩]
            [DomainJunction.Prime3] false) then
        ∃ dl dh m,
          (mkStrand [Domain.helixDomain ⟨0, 0, 3, true⟩]
            [DomainJunction.Prime3] false).domains.getLast? = some dl ∧
          (mkStrand [Domain.helixDomain ⟨0, 5, 8, true⟩]
            [DomainJunction.Prime3] false).domains.head? = some dh ∧
          dl.mergeDom dh = some m ∧
          s'.domains = (mkStrand [Domain.helixDomain ⟨0, 0, 3, true⟩]
            [DomainJunction.Prime3] false).domains.dropLast ++ [m] ++
            (mkStrand [Domain.helixDomain ⟨0, 5, 8, true⟩]
              [DomainJunction.Prime3] false).domains.drop 1 ∧
          s'.junctions = (mkStrand [Domain.helixDomain ⟨0, 0, 3, true⟩]
            [DomainJunction.Prime3] false).junctions.dropLast ++
            (mkStrand [Domain.helixDomain ⟨0, 5, 8, true⟩]
              [DomainJunction.Prime3] false).junctions
      else
        s'.domains = (mkStrand [Domain.helixDomain ⟨0, 0, 3, true⟩]
          [DomainJunction.Prime3] false).domains ++
          (mkStrand [Domain.helixDomain ⟨0, 5, 8, true⟩]
            [DomainJunction.Prime3] false).domains ∧
        s'.junctions = setLast (mkStrand [Domain.helixDomain ⟨0, 0, 3, true⟩]
          [DomainJunction.Prime3] false).junctions DomainJunction.UnindentifiedXover ++
          (mkStrand [Domain.helixDomain ⟨0, 5, 8, true⟩]
            [DomainJunction.Prime3] false).junctions) :=
  ⟨⟨by decide, rfl, rfl⟩,
    claim3_merge_seam_rule exGap 0 1 _ _ (by decide) rfl rfl rfl⟩

end Ensnano

namespace Ensnano

/-- C5: whenever `split_strand` splits a non-cyclic strand into two (non-empty)
halves, the id it returns — the one given to the newly created strand — is
`max(ids existing before the split) + 1`, a key absent from the document
before the split and present after it. -/
theorem claim5_split_id_allocation (design : Design) (nucl : Nucl)
    (forceEnd : Option Bool) (id : Nat) (s : Strand)
    (hg : getStrandNucl design nucl = some id)
    (hfind : design.find? id = some s)
    (hcyc : s.cyclic = false)
    (hlen : 1 < s.length)
    (h5 : (splitStrandParts s nucl forceEnd).strand5.domains ≠ [])
    (h3 : (splitStrandParts s nucl forceEnd).strand3.domains ≠ []) :
    ∃ d2 : Design,
      splitStrand design nucl forceEnd =
        .ok (d2, (keysMax? design.strands).getD 0 + 1) ∧
      design.find? ((keysMax? design.strands).getD 0 + 1) = none ∧
      (d2.find? ((keysMax? design.strands).getD 0 + 1)).isSome := by
  have hle : id ≤ (keysMax? design.strands).getD 0 := find?_le_keysMax _ _ _ hfind
  have hmax : max ((keysMax? (eraseKey design.strands id)).getD 0) id =
      (keysMax? design.strands).getD 0 := keysMax_eraseKey _ _ _ hfind
  have hnone : design.find? ((keysMax? design.strands).getD 0 + 1) = none := by
    cases h : design.find? ((keysMax? design.strands).getD 0 + 1) with
    | none => rfl
    | some v => have := find?_le_keysMax _ _ _ h; omega
  have hlen2 : ¬ (s.length ≤ 1) := by omega
  have h5' : 0 < (splitStrandParts s nucl forceEnd).strand5.domains.length :=
    List.length_pos.mpr h5
  have h3' : 0 < (splitStrandParts s nucl forceEnd).strand3.domains.length :=
    List.length_pos.mpr h3
  cases hON : (splitStrandParts s nucl forceEnd).scan.on3prime with
  | false =>
    refine ⟨((design.erase id).insert id
        (splitStrandParts s nucl forceEnd).strand5).insert
        ((keysMax? design.strands).getD 0 + 1)
        (splitStrandParts s nucl forceEnd).strand3, ?_, hnone, ?_⟩
    · simp only [splitStrand, hg, hfind, hcyc, hlen2, hON, h5', h3', Design.erase,
        Design.insert, if_false, if_true, Bool.not_false, ite_true, ite_false, hmax]
      simp
    · simp only [Design.find?, Design.insert]
      rw [find?_insertStrand_self]
      rfl
  | true =>
    refine ⟨((design.erase id).insert
        ((keysMax? design.strands).getD 0 + 1)
        (splitStrandParts s nucl forceEnd).strand5).insert id
        (splitStrandParts s nucl forceEnd).strand3, ?_, hnone, ?_⟩
    · simp only [splitStrand, hg, hfind, hcyc, hlen2, hON, h5', h3', Design.erase,
        Design.insert, if_false, if_true, Bool.not_true, ite_true, ite_false, hmax]
      simp
    · simp only [Design.find?, Design.insert]
      rw [find?_insertStrand_ne _ _ _ _ (by omega), find?_insertStrand_self]
      rfl

/-- Witness design for C5: strand ids `{0, 1}`, each a single forward
interval of six nucleotides on its own helix. -/
def exTwo : Design :=
  ⟨[(0, mkStrand [Domain.helixDomain ⟨0, 0, 6, true⟩] [DomainJunction.Prime3] false),
    (1, mkStrand [Domain.helixDomain ⟨1, 0, 6, true⟩] [DomainJunction.Prime3] false)]⟩

/-- The document obtained from `exTwo` by splitting strand 0 at the interior
nucleotide `(0, 3, forward)` (checked by the first conjunct of the witness). -/
def exTwoAfter : Design :=
  ⟨[(0, mkStrand [Domain.helixDomain ⟨0, 0, 4, true⟩] [DomainJunction.Prime3] false),
    (1, mkStrand [Domain.helixDomain ⟨1, 0, 6, true⟩] [DomainJunction.Prime3] false),
    (2, mkStrand [Domain.helixDomain ⟨0, 4, 6, true⟩] [DomainJunction.Prime3] false)]⟩

theorem claim5_split_id_allocation_witness :
    (splitStrand exTwo ⟨0, 3, true⟩ none = .ok (exTwoAfter, 2) ∧
      (∃ d2 : Design, splitStrand exTwo ⟨0, 3, true⟩ none =
          .ok (d2, (keysMax? exTwo.strands).getD 0 + 1) ∧
        exTwo.find? ((keysMax? exTwo.strands).getD 0 + 1) = none ∧
        (d2.find? ((keysMax? exTwo.strands).getD 0 + 1)).isSome)) ∧
    (∃ d2 : Design, splitStrand exTwoAfter ⟨1, 3, true⟩ none =
        .ok (d2, (keysMax? exTwoAfter.strands).getD 0 + 1) ∧
      exTwoAfter.find? ((keysMax? exTwoAfter.strands).getD 0 + 1) = none ∧
      (d2.find? ((keysMax? exTwoAfter.strands).getD 0 + 1)).isSome) :=
  ⟨⟨rfl,
    claim5_split_id_allocation exTwo ⟨0, 3, true⟩ none 0
      (mkStrand [Domain.helixDomain ⟨0, 0, 6, true⟩] [DomainJunction.Prime3] false)
      rfl rfl rfl (by decide) (by decide) (by decide)⟩,
    claim5_split_id_allocation exTwoAfter ⟨1, 3, true⟩ none 1
      (mkStrand [Domain.helixDomain ⟨1, 0, 6, true⟩] [DomainJunction.Prime3] false)
      rfl rfl rfl (by decide) (by decide) (by decide)⟩

/-- If the accumulated `last_dom` is already defined, the `break_cycle` scan
returns a defined `last_dom`. -/
theorem breakCycleScanGo_some_mono (nucl : Nucl) (forceEnd : Option Bool) (total : Nat) :
    ∀ (rest : List Domain) (i : Nat) (prevH : Option Nat) (ld : Nat)
      (repl : Option (Domain × Domain)),
      (breakCycleScanGo nucl forceEnd total rest i prevH (some ld) repl).1.isSome := by
  intro rest
  induction rest with
  | nil =>
    intro i prevH ld repl
    simp [breakCycleScanGo]
  | cons d r ih =>
    intro i prevH ld repl
    by_cases h1 : d.prime5_end = some nucl ∧ prevH ≠ d.helix ∧ forceEnd ≠ some false
    · simp [breakCycleScanGo, h1]
    · by_cases h2 : d.prime3_end = some nucl ∧ forceEnd ≠ some true
      · simp [breakCycleScanGo, h1, h2]
      · cases h3 : d.has_nucl nucl with
        | some n => simp only [breakCycleScanGo, if_neg h1, if_neg h2, h3]; exact ih ..
        | none => simp only [breakCycleScanGo, if_neg h1, if_neg h2, h3]; exact ih ..

/-- If some remaining domain contains `nucl`, the `break_cycle` scan finds a
`last_dom` (so the `expect` of the source cannot panic). -/
theorem breakCycleScanGo_some (nucl : Nucl) (forceEnd : Option Bool) (total : Nat) :
    ∀ (rest : List Domain) (i : Nat) (prevH : Option Nat)
      (lastDom : Option Nat) (repl : Option (Domain × Domain)),
      (∃ d ∈ rest, (d.has_nucl nucl).isSome) →
      (breakCycleScanGo nucl forceEnd total rest i prevH lastDom repl).1.isSome := by
  intro rest
  induction rest with
  | nil =>
    intro i prevH lastDom repl h
    simp at h
  | cons d r ih =>
    intro i prevH lastDom repl h
    by_cases h1 : d.prime5_end = some nucl ∧ prevH ≠ d.helix ∧ forceEnd ≠ some false
    · simp [breakCycleScanGo, h1]
    · by_cases h2 : d.prime3_end = some nucl ∧ forceEnd ≠ some true
      · simp [breakCycleScanGo, h1, h2]
      · cases h3 : d.has_nucl nucl with
        | some n =>
          simp only [breakCycleScanGo, if_neg h1, if_neg h2, h3]
          exact breakCycleScanGo_some_mono ..
        | none =>
          simp only [breakCycleScanGo, if_neg h1, if_neg h2, h3]
          obtain ⟨d', hmem, hd'⟩ := h
          rw [List.mem_cons] at hmem
          rcases hmem with hmem | hmem
          · subst hmem; rw [h3] at hd'; simp at hd'
          · exact ih _ _ _ _ ⟨d', hmem, hd'⟩

/-- C6: splitting at a nucleotide of a cyclic strand allocates no new id and
returns the strand's original id; the strand is replaced, under the same id,
by a single linear strand (`cyclic = false`) whose final junction is
`Prime3`, and the number of strands in the document is unchanged. -/
theorem claim6_cyclic_split (design : Design) (nucl : Nucl) (forceEnd : Option Bool)
    (id : Nat) (s : Strand)
    (hsort : sortedKeysB design.strands = true)
    (hg : getStrandNucl design nucl = some id)
    (hfind : design.find? id = some s)
    (hcyc : s.cyclic = true)
    (hnucl : s.hasNucl nucl = true) :
    ∃ ns : Strand,
      splitStrand design nucl forceEnd = .ok ((design.erase id).insert id ns, id) ∧
      ns.cyclic = false ∧
      ns.junctions.getLast? = some DomainJunction.Prime3 ∧
      ((design.erase id).insert id ns).strands.length = design.strands.length ∧
      ((design.erase id).insert id ns).find? id = some ns := by
  have hex : ∃ d ∈ s.domains, (d.has_nucl nucl).isSome := by
    unfold Strand.hasNucl at hnucl
    simpa using hnucl
  have hscan := breakCycleScanGo_some nucl forceEnd s.domains.length s.domains 0 none
    none none hex
  obtain ⟨ld, hld⟩ : ∃ ld, (breakCycleScanGo nucl forceEnd s.domains.length
      s.domains 0 none none none).1 = some ld := by
    cases h : (breakCycleScanGo nucl forceEnd s.domains.length
        s.domains 0 none none none).1 with
    | none => rw [h] at hscan; simp at hscan
    | some ld => exact ⟨ld, rfl⟩
  obtain ⟨ns, hns, hnsc, hnsj⟩ : ∃ ns, breakCycle s nucl forceEnd = some ns ∧
      ns.cyclic = false ∧ ns.junctions.getLast? = some DomainJunction.Prime3 := by
    unfold breakCycle
    cases hsc : breakCycleScanGo nucl forceEnd s.domains.length s.domains 0 none
        none none with
    | mk fst snd =>
      rw [hsc] at hld
      simp only at hld
      subst hld
      refine ⟨_, rfl, rfl, ?_⟩
      simp only [List.append_assoc]
      simp [List.getLast?_append]
  refine ⟨ns, ?_, hnsc, hnsj, ?_, ?_⟩
  · simp only [splitStrand, hg, hfind, hcyc, hns, if_true]
  · have h1 : (eraseKey design.strands id).length + 1 = design.strands.length :=
      length_eraseKey _ _ _ hfind
    have h2 : strandsFind? (eraseKey design.strands id) id = none :=
      find?_eraseKey_self _ _ hsort _ hfind
    have h3 := length_insertStrand_new (eraseKey design.strands id) id ns h2
    simp only [Design.erase, Design.insert]
    omega
  · simp only [Design.erase, Design.insert, Design.find?]
    exact find?_insertStrand_self _ _ _

/-- Witness design for C6: one cyclic strand over two helices. -/
def exCyc : Design :=
  ⟨[(0, mkStrand [Domain.helixDomain ⟨0, 0, 3, true⟩, Domain.helixDomain ⟨1, 0, 3, true⟩]
      [DomainJunction.UnindentifiedXover, DomainJunction.UnindentifiedXover] true)]⟩

theorem claim6_cyclic_split_witness :
    (sortedKeysB exCyc.strands = true ∧
     getStrandNucl exCyc ⟨1, 1, true⟩ = some 0 ∧
     (mkStrand [Domain.helixDomain ⟨0, 0, 3, true⟩, Domain.helixDomain ⟨1, 0, 3, true⟩]
       [DomainJunction.UnindentifiedXover, DomainJunction.UnindentifiedXover] true).cyclic
        = true) ∧
    ∃ ns : Strand,
      splitStrand exCyc ⟨1, 1, true⟩ none = .ok ((exCyc.erase 0).insert 0 ns, 0) ∧
      ns.cyclic = false ∧
      ns.junctions.getLast? = some DomainJunction.Prime3 ∧
      ((exCyc.erase 0).insert 0 ns).strands.length = exCyc.strands.length ∧
      ((exCyc.erase 0).insert 0 ns).find? 0 = some ns :=
  ⟨⟨by decide, rfl, rfl⟩,
    claim6_cyclic_split exCyc ⟨1, 1, true⟩ none 0
      (mkStrand [Domain.helixDomain ⟨0, 0, 3, true⟩, Domain.helixDomain ⟨1, 0, 3, true⟩]
        [DomainJunction.UnindentifiedXover, DomainJunction.UnindentifiedXover] true)
      (by decide) rfl rfl rfl (by decide)⟩

end Ensnano

namespace Ensnano

/-! ## Interval lemmas for the split/merge inverse law (C1) -/

theorem hasNucl_lt {i : HelixInterval} {n : Nucl} {k : Nat}
    (h : i.hasNucl n = some k) : k < i.length := by
  unfold HelixInterval.hasNucl at h
  by_cases hc : n.helix = i.helix ∧ n.forward = i.forward ∧
      i.start ≤ n.position ∧ n.position < i.end_
  · rw [if_pos hc] at h
    obtain ⟨-, -, h3, h4⟩ := hc
    injection h with h
    subst h
    unfold HelixInterval.length
    by_cases hf : i.forward <;> simp [hf] <;> omega
  · rw [if_neg hc] at h
    exact absurd h (by simp)

theorem hasNucl_nuclAt {i : HelixInterval} {n : Nucl} {k : Nat}
    (h : i.hasNucl n = some k) : n = i.nuclAt k := by
  unfold HelixInterval.hasNucl at h
  by_cases hc : n.helix = i.helix ∧ n.forward = i.forward ∧
      i.start ≤ n.position ∧ n.position < i.end_
  · rw [if_pos hc] at h
    obtain ⟨h1, h2, h3, h4⟩ := hc
    injection h with h
    subst h
    unfold HelixInterval.nuclAt
    cases n with
    | mk nh np nf =>
      simp only at h1 h2 h3 h4
      cases hfw : i.forward with
      | true =>
        rw [hfw] at h2
        simp only [if_true, Nucl.mk.injEq]
        refine ⟨h1, ?_, h2⟩
        omega
      | false =>
        rw [hfw] at h2
        simp only [Bool.false_eq_true, if_false, Nucl.mk.injEq]
        refine ⟨h1, ?_, h2⟩
        omega
  · rw [if_neg hc] at h
    exact absurd h (by simp)

theorem nuclAt_inj {i : HelixInterval} {k1 k2 : Nat}
    (h : i.nuclAt k1 = i.nuclAt k2) : k1 = k2 := by
  unfold HelixInterval.nuclAt at h
  cases hfw : i.forward <;> rw [hfw] at h <;>
    simp only [Bool.false_eq_true, if_false, if_true, Nucl.mk.injEq] at h <;> omega

theorem prime5_eq_nuclAt (i : HelixInterval) : i.prime5 = i.nuclAt 0 := by
  unfold HelixInterval.prime5 HelixInterval.nuclAt
  cases hfw : i.forward <;> simp

theorem prime3_eq_nuclAt {i : HelixInterval} (h : 0 < i.length) :
    i.prime3 = i.nuclAt (i.length - 1) := by
  unfold HelixInterval.prime3 HelixInterval.nuclAt
  unfold HelixInterval.length at h ⊢
  cases hfw : i.forward <;> simp <;> omega

theorem nuclAt_hasNucl {i : HelixInterval} {k : Nat} (h : k < i.length) :
    i.hasNucl (i.nuclAt k) = some k := by
  unfold HelixInterval.length at h
  cases hfw : i.forward with
  | true =>
    have hsh : i.nuclAt k = ⟨i.helix, i.start + (k : Int), true⟩ := by
      unfold HelixInterval.nuclAt
      rw [hfw]
      simp
    rw [hsh]
    unfold HelixInterval.hasNucl
    rw [hfw]
    rw [if_pos ⟨rfl, rfl, by show i.start ≤ i.start + (k : Int); omega,
      by show i.start + (k : Int) < i.end_; omega⟩]
    show some ((i.start + (k : Int) - i.start).toNat) = some k
    congr 1
    omega
  | false =>
    have hsh : i.nuclAt k = ⟨i.helix, i.end_ - 1 - (k : Int), false⟩ := by
      unfold HelixInterval.nuclAt
      rw [hfw]
      simp
    rw [hsh]
    unfold HelixInterval.hasNucl
    rw [hfw]
    rw [if_pos ⟨rfl, rfl, by show i.start ≤ i.end_ - 1 - (k : Int); omega,
      by show i.end_ - 1 - (k : Int) < i.end_; omega⟩]
    show some ((i.end_ - 1 - (i.end_ - 1 - (k : Int))).toNat) = some k
    congr 1
    omega

theorem nuclList_length (i : HelixInterval) : i.nuclList.length = i.length := by
  simp [HelixInterval.nuclList]

theorem nuclList_head? {i : HelixInterval} (h : 0 < i.length) :
    i.nuclList.head? = some (i.nuclAt 0) := by
  obtain ⟨m, hm⟩ : ∃ m, i.length = m + 1 := ⟨i.length - 1, by omega⟩
  unfold HelixInterval.nuclList
  rw [hm, List.range_succ_eq_map]
  simp

theorem nuclList_getLast? {i : HelixInterval} (h : 0 < i.length) :
    i.nuclList.getLast? = some (i.nuclAt (i.length - 1)) := by
  obtain ⟨m, hm⟩ : ∃ m, i.length = m + 1 := ⟨i.length - 1, by omega⟩
  unfold HelixInterval.nuclList
  rw [hm, List.range_succ, List.map_append]
  simp

theorem mem_nuclList {i : HelixInterval} {n : Nucl} :
    n ∈ i.nuclList ↔ ∃ k, k < i.length ∧ n = i.nuclAt k := by
  simp only [HelixInterval.nuclList, List.mem_map, List.mem_range]
  constructor
  · rintro ⟨k, hk, rfl⟩; exact ⟨k, hk, rfl⟩
  · rintro ⟨k, hk, rfl⟩; exact ⟨k, hk, rfl⟩

/-- The enclosing-interval fusion is the exact concatenation when the second
interval starts at the 5′→3′ successor of the first interval's 3′ end. -/
theorem mergeIv_nuclList {i1 i2 : HelixInterval}
    (hh : i1.helix = i2.helix) (hf : i1.forward = i2.forward)
    (hp : 0 < i1.length) (hadj : i2.prime5 = i1.prime3.prime3) :
    (i1.mergeIv i2).nuclList = i1.nuclList ++ i2.nuclList := by
  have hlen1 : (0 : Int) < i1.end_ - i1.start := by
    unfold HelixInterval.length at hp; omega
  cases hfw : i1.forward with
  | true =>
    have hf2 : i2.forward = true := by rw [← hf, hfw]
    have hst : i2.start = i1.end_ := by
      unfold HelixInterval.prime5 HelixInterval.prime3 Nucl.prime3 at hadj
      rw [hf2, hfw] at hadj
      simp only [if_true, Nucl.mk.injEq] at hadj
      omega
    by_cases he2 : i2.end_ ≤ i1.end_
    · have h2len : i2.length = 0 := by
        unfold HelixInterval.length; omega
      have hspan : i1.mergeIv i2 = ⟨i1.helix, i1.start, i1.end_, i1.forward⟩ := by
        unfold HelixInterval.mergeIv
        congr 1 <;> omega
      have h2nil : i2.nuclList = [] := by
        unfold HelixInterval.nuclList
        rw [h2len]
        simp
      rw [hspan, h2nil, List.append_nil]
    · have hspan : i1.mergeIv i2 = ⟨i1.helix, i1.start, i2.end_, i1.forward⟩ := by
        unfold HelixInterval.mergeIv
        congr 1 <;> omega
      have hlen : (i1.mergeIv i2).length = i1.length + i2.length := by
        rw [hspan]
        unfold HelixInterval.length
        simp only
        omega
      unfold HelixInterval.nuclList
      rw [hlen, List.range_add, List.map_append, List.map_map]
      congr 1
      · apply List.map_congr_left
        intro j hj
        rw [List.mem_range] at hj
        rw [hspan]
        unfold HelixInterval.nuclAt
        simp only [hfw, if_true]
      · apply List.map_congr_left
        intro j hj
        rw [List.mem_range] at hj
        rw [hspan]
        unfold HelixInterval.nuclAt
        rw [hf2, hfw]
        simp only [if_true, Function.comp_apply, Nucl.mk.injEq]
        refine ⟨hh, ?_, by trivial⟩
        unfold HelixInterval.length at *
        omega
  | false =>
    have hf2 : i2.forward = false := by rw [← hf, hfw]
    have hst : i2.end_ = i1.start := by
      unfold HelixInterval.prime5 HelixInterval.prime3 Nucl.prime3 at hadj
      rw [hf2, hfw] at hadj
      simp only [Bool.false_eq_true, if_false, Nucl.mk.injEq] at hadj
      omega
    by_cases he2 : i1.start ≤ i2.start
    · have h2len : i2.length = 0 := by
        unfold HelixInterval.length; omega
      have hspan : i1.mergeIv i2 = ⟨i1.helix, i1.start, i1.end_, i1.forward⟩ := by
        unfold HelixInterval.mergeIv
        congr 1 <;> omega
      have h2nil : i2.nuclList = [] := by
        unfold HelixInterval.nuclList
        rw [h2len]
        simp
      rw [hspan, h2nil, List.append_nil]
    · have hspan : i1.mergeIv i2 = ⟨i1.helix, i2.start, i1.end_, i1.forward⟩ := by
        unfold HelixInterval.mergeIv
        congr 1 <;> omega
      have hlen : (i1.mergeIv i2).length = i1.length + i2.length := by
        rw [hspan]
        unfold HelixInterval.length
        simp only
        omega
      unfold HelixInterval.nuclList
      rw [hlen, List.range_add, List.map_append, List.map_map]
      congr 1
      · apply List.map_congr_left
        intro j hj
        rw [List.mem_range] at hj
        rw [hspan]
        unfold HelixInterval.nuclAt
        simp only [hfw, Bool.false_eq_true, if_false]
      · apply List.map_congr_left
        intro j hj
        rw [List.mem_range] at hj
        rw [hspan]
        unfold HelixInterval.nuclAt
        rw [hf2, hfw]
        simp only [Bool.false_eq_true, if_false, Function.comp_apply, Nucl.mk.injEq]
        refine ⟨hh, ?_, by trivial⟩
        unfold HelixInterval.length at *
        omega

end Ensnano

namespace Ensnano

/-- The two pieces of a successful interval split: same helix and direction,
both pieces non-empty, the second starts at the successor of the first's 3′
end, and their nucleotide lists concatenate to the original's. -/
theorem splitAt_spec {i : HelixInterval} {k : Nat} {a b : HelixInterval}
    (h : i.splitAt k = some (a, b)) :
    a.helix = i.helix ∧ a.forward = i.forward ∧ b.helix = i.helix ∧
    b.forward = i.forward ∧ 0 < a.length ∧ 0 < b.length ∧
    b.prime5 = a.prime3.prime3 ∧ a.nuclList ++ b.nuclList = i.nuclList := by
  unfold HelixInterval.splitAt at h
  by_cases hk : k + 1 < i.length
  · rw [if_pos hk] at h
    have hk2 : k + 1 < (i.end_ - i.start).toNat := hk
    cases hfw : i.forward with
    | true =>
      rw [hfw] at h
      simp only [if_true, Option.some.injEq, Prod.mk.injEq] at h
      obtain ⟨ha, hb⟩ := h
      subst ha; subst hb
      have hlen_a : (0:Nat) <
          (⟨i.helix, i.start, i.start + (↑k + 1), true⟩ : HelixInterval).length := by
        unfold HelixInterval.length; simp only; omega
      have hlen_b : (0:Nat) <
          (⟨i.helix, i.start + (↑k + 1), i.end_, true⟩ : HelixInterval).length := by
        unfold HelixInterval.length; simp only; omega
      have hadj : (⟨i.helix, i.start + (↑k + 1), i.end_, true⟩ : HelixInterval).prime5 =
          ((⟨i.helix, i.start, i.start + (↑k + 1), true⟩ : HelixInterval).prime3).prime3 := by
        unfold HelixInterval.prime5 HelixInterval.prime3 Nucl.prime3
        simp only [if_true]
        congr 1
        omega
      have hhh : (⟨i.helix, i.start, i.start + (↑k + 1), true⟩ : HelixInterval).helix =
          (⟨i.helix, i.start + (↑k + 1), i.end_, true⟩ : HelixInterval).helix := rfl
      have hff : (⟨i.helix, i.start, i.start + (↑k + 1), true⟩ : HelixInterval).forward =
          (⟨i.helix, i.start + (↑k + 1), i.end_, true⟩ : HelixInterval).forward := rfl
      refine ⟨rfl, rfl, rfl, rfl, hlen_a, hlen_b, hadj, ?_⟩
      have hmg : (⟨i.helix, i.start, i.start + (↑k + 1), true⟩ :
          HelixInterval).mergeIv ⟨i.helix, i.start + (↑k + 1), i.end_, true⟩ = i := by
        show (⟨i.helix, min i.start (i.start + (↑k + 1)),
          max (i.start + (↑k + 1)) i.end_, true⟩ : HelixInterval) = i
        rw [min_eq_left (by omega), max_eq_right (by omega), ← hfw]
      conv_rhs => rw [← hmg]
      exact (mergeIv_nuclList hhh hff hlen_a hadj).symm
    | false =>
      rw [hfw] at h
      simp only [Bool.false_eq_true, if_false, Option.some.injEq, Prod.mk.injEq] at h
      obtain ⟨ha, hb⟩ := h
      subst ha; subst hb
      have hlen_a : (0:Nat) <
          (⟨i.helix, i.end_ - (↑k + 1), i.end_, false⟩ : HelixInterval).length := by
        unfold HelixInterval.length; simp only; omega
      have hlen_b : (0:Nat) <
          (⟨i.helix, i.start, i.end_ - (↑k + 1), false⟩ : HelixInterval).length := by
        unfold HelixInterval.length; simp only; omega
      have hadj : (⟨i.helix, i.start, i.end_ - (↑k + 1), false⟩ : HelixInterval).prime5 =
          ((⟨i.helix, i.end_ - (↑k + 1), i.end_, false⟩ : HelixInterval).prime3).prime3 := by
        unfold HelixInterval.prime5 HelixInterval.prime3 Nucl.prime3
        simp only [Bool.false_eq_true, if_false]
        try congr 1
        try omega
      have hhh : (⟨i.helix, i.end_ - (↑k + 1), i.end_, false⟩ : HelixInterval).helix =
          (⟨i.helix, i.start, i.end_ - (↑k + 1), false⟩ : HelixInterval).helix := rfl
      have hff : (⟨i.helix, i.end_ - (↑k + 1), i.end_, false⟩ : HelixInterval).forward =
          (⟨i.helix, i.start, i.end_ - (↑k + 1), false⟩ : HelixInterval).forward := rfl
      refine ⟨rfl, rfl, rfl, rfl, hlen_a, hlen_b, hadj, ?_⟩
      have hmg : (⟨i.helix, i.end_ - (↑k + 1), i.end_, false⟩ :
          HelixInterval).mergeIv ⟨i.helix, i.start, i.end_ - (↑k + 1), false⟩ = i := by
        show (⟨i.helix, min (i.end_ - (↑k + 1)) i.start,
          max i.end_ (i.end_ - (↑k + 1)), false⟩ : HelixInterval) = i
        rw [min_eq_right (by omega), max_eq_left (by omega), ← hfw]
      conv_rhs => rw [← hmg]
      exact (mergeIv_nuclList hhh hff hlen_a hadj).symm
  · rw [if_neg hk] at h
    exact absurd h (by simp)

/-- An interval split succeeds exactly below the last in-interval index. -/
theorem splitAt_isSome {i : HelixInterval} {k : Nat} (h : k + 1 < i.length) :
    ∃ a b, i.splitAt k = some (a, b) := by
  unfold HelixInterval.splitAt
  rw [if_pos h]
  cases hfw : i.forward <;> exact ⟨_, _, rfl⟩

theorem has_nucl_cases {d : Domain} {n : Nucl} {k : Nat}
    (h : d.has_nucl n = some k) :
    ∃ i, d = Domain.helixDomain i ∧ i.hasNucl n = some k := by
  cases d with
  | helixDomain i => exact ⟨i, rfl, h⟩
  | insertion m => simp [Domain.has_nucl] at h

theorem prime5_end_cases {d : Domain} {n : Nucl} (h : d.prime5_end = some n) :
    ∃ i, d = Domain.helixDomain i ∧ n = i.prime5 := by
  cases d with
  | helixDomain i =>
    refine ⟨i, rfl, ?_⟩
    injection h with h
    exact h.symm
  | insertion m => simp [Domain.prime5_end] at h

theorem prime3_end_cases {d : Domain} {n : Nucl} (h : d.prime3_end = some n) :
    ∃ i, d = Domain.helixDomain i ∧ n = i.prime3 := by
  cases d with
  | helixDomain i =>
    refine ⟨i, rfl, ?_⟩
    injection h with h
    exact h.symm
  | insertion m => simp [Domain.prime3_end] at h

/-- A domain is proper when a helix interval is non-empty (spec §3: a
`HelixInterval` is a run of nucleotides). -/
def properDomain : Domain → Prop
  | .helixDomain i => 0 < i.length
  | .insertion _ => True

def properDomainsB (l : List Domain) : Bool :=
  l.all fun d =>
    match d with
    | .helixDomain i => decide (0 < i.length)
    | .insertion _ => true

theorem properDomainsB_mem {l : List Domain} (h : properDomainsB l = true) :
    ∀ d ∈ l, properDomain d := by
  intro d hd
  unfold properDomainsB at h
  rw [List.all_eq_true] at h
  have hde := h d hd
  cases d with
  | helixDomain i =>
    show 0 < i.length
    exact of_decide_eq_true hde
  | insertion m => trivial

theorem proper_prime5_has {d : Domain} {n : Nucl}
    (hp : properDomain d) (h : d.prime5_end = some n) : d.has_nucl n = some 0 := by
  obtain ⟨i, rfl, hn⟩ := prime5_end_cases h
  subst hn
  show i.hasNucl i.prime5 = some 0
  rw [prime5_eq_nuclAt]
  exact nuclAt_hasNucl hp

theorem proper_prime3_has {d : Domain} {n : Nucl}
    (hp : properDomain d) (h : d.prime3_end = some n) :
    d.has_nucl n = some (d.length - 1) := by
  obtain ⟨i, rfl, hn⟩ := prime3_end_cases h
  subst hn
  have hp2 : 0 < i.length := hp
  show i.hasNucl i.prime3 = some (i.length - 1)
  rw [prime3_eq_nuclAt hp2]
  exact nuclAt_hasNucl (by omega)

theorem flatNucls_append (l1 l2 : List Domain) :
    flatNucls (l1 ++ l2) = flatNucls l1 ++ flatNucls l2 := by
  induction l1 with
  | nil => simp [flatNucls]
  | cons d r ih => simp [flatNucls, ih]

theorem mem_flatNucls {n : Nucl} {l : List Domain} :
    n ∈ flatNucls l ↔ ∃ d ∈ l, n ∈ d.nuclList := by
  induction l with
  | nil => simp [flatNucls]
  | cons d r ih => simp [flatNucls, ih]

theorem nuclList_domain_length (d : Domain) : d.nuclList.length ≤ d.length := by
  cases d with
  | helixDomain i =>
    show i.nuclList.length ≤ i.length
    rw [nuclList_length]
  | insertion m =>
    show ([] : List Nucl).length ≤ m
    simp

theorem flatNucls_length_le (l : List Domain) :
    (flatNucls l).length ≤ sumLengths l := by
  induction l with
  | nil => simp [flatNucls, sumLengths]
  | cons d r ih =>
    show (d.nuclList ++ flatNucls r).length ≤ d.length + sumLengths r
    rw [List.length_append]
    have hd := nuclList_domain_length d
    omega

theorem mem_domain_nuclList_has {d : Domain} {n : Nucl}
    (h : n ∈ d.nuclList) : (d.has_nucl n).isSome := by
  cases d with
  | helixDomain i =>
    rw [Domain.nuclList] at h
    obtain ⟨k, hk, rfl⟩ := mem_nuclList.mp h
    show (i.hasNucl (i.nuclAt k)).isSome
    rw [nuclAt_hasNucl hk]
    rfl
  | insertion m => simp [Domain.nuclList] at h

/-- Exactness of a seam: two helix intervals on the same helix with the same
direction must be directly adjacent (the condition under which the source's
span-fusion is the exact concatenation). -/
def seamExact (a b : Domain) : Bool :=
  match a, b with
  | .helixDomain i1, .helixDomain i2 =>
    if i1.helix = i2.helix ∧ i1.forward = i2.forward then
      decide (i2.prime5 = i1.prime3.prime3)
    else true
  | _, _ => true

/-- Sane-domain condition on a strand's domain list: every pair of
consecutive helix intervals on the same helix with the same direction is
directly adjacent. -/
def saneDomainsB : List Domain → Bool
  | [] => true
  | [_] => true
  | a :: b :: r => seamExact a b && saneDomainsB (b :: r)

theorem saneDomainsB_tail {a : Domain} {r : List Domain}
    (h : saneDomainsB (a :: r) = true) : saneDomainsB r = true := by
  cases r with
  | nil => rfl
  | cons b t =>
    unfold saneDomainsB at h
    exact (Bool.and_eq_true_iff.mp h).2

theorem saneDomainsB_pair (l1 : List Domain) :
    ∀ (a b : Domain) (l2 : List Domain),
      saneDomainsB (l1 ++ a :: b :: l2) = true → seamExact a b = true := by
  induction l1 with
  | nil =>
    intro a b l2 h
    unfold saneDomainsB at h
    exact (Bool.and_eq_true_iff.mp h).1
  | cons c t ih =>
    intro a b l2 h
    exact ih a b l2 (saneDomainsB_tail h)

theorem seamExact_spec {i1 i2 : HelixInterval}
    (h : seamExact (Domain.helixDomain i1) (Domain.helixDomain i2) = true)
    (hh : i1.helix = i2.helix) (hf : i1.forward = i2.forward) :
    i2.prime5 = i1.prime3.prime3 := by
  simp only [seamExact] at h
  rw [if_pos ⟨hh, hf⟩] at h
  exact of_decide_eq_true h

end Ensnano

namespace Ensnano

/-- The `prev_helix` value seen by the scan when it reaches the domain that
follows the prefix `pre`. -/
def prevHelixOf (pre : List Domain) (prevH : Option Nat) : Option Nat :=
  match pre.getLast? with
  | none => prevH
  | some d => d.helix

/-- Characterization of the `split_strand` scan with `force_end = None` on a
list of proper domains containing the cut nucleotide: the scan stops at the
first domain containing `nucl`, in one of the three branches of the source
(5′-end-of-a-crossover, 3′-end, or strictly inside), and the accumulated 5′
material is exactly the prefix before that domain. -/
theorem splitScanGo_spec (nucl : Nucl) (allJ : List DomainJunction) :
    ∀ (rest : List Domain) (dId : Nat) (prevH : Option Nat) (accD : List Domain)
      (accLen : Nat) (accJ : List DomainJunction),
      (∀ d ∈ rest, properDomain d) →
      (∃ d ∈ rest, (d.has_nucl nucl).isSome) →
      ∃ pre d post k,
        rest = pre ++ d :: post ∧
        (∀ e ∈ pre, e.has_nucl nucl = none) ∧
        d.has_nucl nucl = some k ∧
        ((d.prime5_end = some nucl ∧ prevHelixOf pre prevH ≠ d.helix ∧
            (splitScanGo nucl none allJ rest dId prevH accD accLen accJ).prim5Domains =
              accD.reverse ++ pre ∧
            (splitScanGo nucl none allJ rest dId prevH accD accLen accJ).pieces = none ∧
            (splitScanGo nucl none allJ rest dId prevH accD accLen accJ).on3prime = true ∧
            (splitScanGo nucl none allJ rest dId prevH accD accLen accJ).i =
              dId + pre.length) ∨
         (¬(d.prime5_end = some nucl ∧ prevHelixOf pre prevH ≠ d.helix) ∧
            d.prime3_end = some nucl ∧
            (splitScanGo nucl none allJ rest dId prevH accD accLen accJ).prim5Domains =
              accD.reverse ++ pre ++ [d] ∧
            (splitScanGo nucl none allJ rest dId prevH accD accLen accJ).pieces = none ∧
            (splitScanGo nucl none allJ rest dId prevH accD accLen accJ).on3prime = false ∧
            (splitScanGo nucl none allJ rest dId prevH accD accLen accJ).i =
              dId + pre.length + 1) ∨
         (¬(d.prime5_end = some nucl ∧ prevHelixOf pre prevH ≠ d.helix) ∧
            ¬(d.prime3_end = some nucl) ∧
            (splitScanGo nucl none allJ rest dId prevH accD accLen accJ).prim5Domains =
              accD.reverse ++ pre ∧
            (splitScanGo nucl none allJ rest dId prevH accD accLen accJ).pieces =
              d.split k ∧
            (splitScanGo nucl none allJ rest dId prevH accD accLen accJ).on3prime = false ∧
            (splitScanGo nucl none allJ rest dId prevH accD accLen accJ).i =
              dId + pre.length)) := by
  intro rest
  induction rest with
  | nil =>
    intro dId prevH accD accLen accJ hprop hex
    simp at hex
  | cons d0 r ih =>
    intro dId prevH accD accLen accJ hprop hex
    by_cases hb1 : d0.prime5_end = some nucl ∧ prevH ≠ d0.helix ∧
        (none : Option Bool) ≠ some false
    · have hhn : d0.has_nucl nucl = some 0 :=
        proper_prime5_has (hprop d0 (by simp)) hb1.1
      refine ⟨[], d0, r, 0, rfl, by simp, hhn, ?_⟩
      left
      have hstep : splitScanGo nucl none allJ (d0 :: r) dId prevH accD accLen accJ =
          { i := dId, prim5Domains := accD.reverse, lenPrim5 := accLen, pieces := none,
            on3prime := true,
            prime5Junctions := setLast accJ.reverse DomainJunction.Prime3,
            prime3Junctions := [] } := by
        simp only [splitScanGo, if_pos hb1]
      rw [hstep]
      exact ⟨hb1.1, hb1.2.1, by simp, rfl, rfl, by simp⟩
    · by_cases hb2 : d0.prime3_end = some nucl ∧ (none : Option Bool) ≠ some true
      · have hhn : d0.has_nucl nucl = some (d0.length - 1) :=
          proper_prime3_has (hprop d0 (by simp)) hb2.1
        refine ⟨[], d0, r, d0.length - 1, rfl, by simp, hhn, ?_⟩
        right; left
        have hstep : splitScanGo nucl none allJ (d0 :: r) dId prevH accD accLen accJ =
            { i := dId + 1, prim5Domains := (d0 :: accD).reverse,
              lenPrim5 := accLen + d0.length, pieces := none, on3prime := false,
              prime5Junctions := (DomainJunction.Prime3 :: accJ).reverse,
              prime3Junctions := [] } := by
          simp only [splitScanGo, if_neg hb1, if_pos hb2, Option.getD_none]
        rw [hstep]
        refine ⟨?_, hb2.1, by simp, rfl, rfl, by simp⟩
        intro hcon
        exact hb1 ⟨hcon.1, hcon.2, by simp⟩
      · cases hhn : d0.has_nucl nucl with
        | some n0 =>
          refine ⟨[], d0, r, n0, rfl, by simp, hhn, ?_⟩
          right; right
          have hstep : splitScanGo nucl none allJ (d0 :: r) dId prevH accD accLen accJ =
              { i := dId, prim5Domains := accD.reverse, lenPrim5 := accLen + n0,
                pieces := d0.split n0, on3prime := false,
                prime5Junctions := (DomainJunction.Prime3 :: accJ).reverse,
                prime3Junctions := [allJ.getD dId DomainJunction.Prime3] } := by
            simp only [splitScanGo, if_neg hb1, if_neg hb2, hhn, Option.getD_none,
              if_neg (show ¬((none : Option Bool) = some true) by simp)]
          rw [hstep]
          refine ⟨?_, ?_, by simp, rfl, rfl, by simp⟩
          · intro hcon
            exact hb1 ⟨hcon.1, hcon.2, by simp⟩
          · intro hcon
            exact hb2 ⟨hcon, by simp⟩
        | none =>
          have hnb1 : ¬(d0.prime5_end = some nucl ∧ prevH ≠ d0.helix ∧
              (none : Option Bool) ≠ some false) := by
            rintro ⟨hp5, -, -⟩
            have h0 := proper_prime5_has (hprop d0 (by simp)) hp5
            rw [h0] at hhn
            exact Option.noConfusion hhn
          have hnb2 : ¬(d0.prime3_end = some nucl ∧ (none : Option Bool) ≠ some true) := by
            rintro ⟨hp3, -⟩
            have h0 := proper_prime3_has (hprop d0 (by simp)) hp3
            rw [h0] at hhn
            exact Option.noConfusion hhn
          have hstep : splitScanGo nucl none allJ (d0 :: r) dId prevH accD accLen accJ =
              splitScanGo nucl none allJ r (dId + 1) d0.helix (d0 :: accD)
                (accLen + d0.length) (allJ.getD dId DomainJunction.Prime3 :: accJ) := by
            simp only [splitScanGo, if_neg hnb1, if_neg hnb2, hhn]
          obtain ⟨d1, hd1mem, hd1⟩ := hex
          rw [List.mem_cons] at hd1mem
          have hex' : ∃ d ∈ r, (d.has_nucl nucl).isSome := by
            rcases hd1mem with h | h
            · subst h; rw [hhn] at hd1; simp at hd1
            · exact ⟨d1, h, hd1⟩
          obtain ⟨pre', d, post, k, hre, hmiss, hk, hcase⟩ :=
            ih (dId + 1) d0.helix (d0 :: accD) (accLen + d0.length)
              (allJ.getD dId DomainJunction.Prime3 :: accJ)
              (fun e he => hprop e (by simp [he])) hex'
          refine ⟨d0 :: pre', d, post, k, by rw [hre]; rfl, ?_, hk, ?_⟩
          · intro e he
            rw [List.mem_cons] at he
            rcases he with he | he
            · subst he; exact hhn
            · exact hmiss e he
          · have hpv : prevHelixOf (d0 :: pre') prevH = prevHelixOf pre' d0.helix := by
              unfold prevHelixOf
              cases pre' with
              | nil => simp
              | cons q t =>
                rw [List.getLast?_cons_cons]
                obtain ⟨x, hx⟩ : ∃ x, (q :: t).getLast? = some x := by
                  cases h : (q :: t).getLast? with
                  | none => exact absurd h (by simp)
                  | some x => exact ⟨x, rfl⟩
                rw [hx]
            rw [hstep, hpv]
            rcases hcase with ⟨c1, c2, c3, c4, c5, c6⟩ | ⟨c1, c2, c3, c4, c5, c6⟩ |
              ⟨c1, c2, c3, c4, c5, c6⟩
            · left
              refine ⟨c1, c2, ?_, c4, c5, ?_⟩
              · rw [c3]; simp
              · rw [c6]; simp; omega
            · right; left
              refine ⟨c1, c2, ?_, c4, c5, ?_⟩
              · rw [c3]; simp
              · rw [c6]; simp; omega
            · right; right
              refine ⟨c1, c2, ?_, c4, c5, ?_⟩
              · rw [c3]; simp
              · rw [c6]; simp; omega

end Ensnano

namespace Ensnano

theorem eq_dropLast_append {α : Type} {l : List α} {a : α}
    (h : l.getLast? = some a) : l = l.dropLast ++ [a] := by
  induction l with
  | nil => simp at h
  | cons x xs ih =>
    cases xs with
    | nil =>
      simp at h
      subst h
      rfl
    | cons y ys =>
      rw [List.getLast?_cons_cons] at h
      have hx := ih h
      conv_lhs => rw [hx]
      simp

theorem eq_head_cons {α : Type} {l : List α} {a : α}
    (h : l.head? = some a) : l = a :: l.tail := by
  cases l with
  | nil => simp at h
  | cons x xs =>
    injection h with h
    subst h
    rfl

/-- The domain list produced by `merge_strands` carries exactly the
nucleotides of the two inputs, provided a fused seam is exact (which the
`hseam` hypothesis guarantees whenever fusion fires). -/
theorem mergeCore_flatNucls (s5 s3 : Strand)
    (hseam : ∀ i1 i2, s5.domains.getLast? = some (Domain.helixDomain i1) →
      s3.domains.head? = some (Domain.helixDomain i2) →
      i1.helix = i2.helix → i1.forward = i2.forward →
      0 < i1.length ∧ i2.prime5 = i1.prime3.prime3) :
    ∃ dj, mergeCore s5 s3 = .ok dj ∧
      flatNucls dj.1 = flatNucls s5.domains ++ flatNucls s3.domains := by
  by_cases hc : fuseCond s5 s3
  · have hceq := hc.1
    have hcsome := hc.2
    obtain ⟨dl, hdl⟩ : ∃ dl, s5.domains.getLast? = some dl := by
      cases h : s5.domains.getLast? with
      | none => rw [h] at hcsome; simp at hcsome
      | some dl => exact ⟨dl, rfl⟩
    rw [hdl] at hcsome hceq
    simp only [Option.some_bind] at hcsome hceq
    obtain ⟨hh, hhh⟩ : ∃ hh, dl.half_helix = some hh := by
      cases h : dl.half_helix with
      | none => rw [h] at hcsome; simp at hcsome
      | some hh => exact ⟨hh, rfl⟩
    rw [hhh] at hceq
    obtain ⟨dh, hdh⟩ : ∃ dh, s3.domains.head? = some dh := by
      cases h : s3.domains.head? with
      | none => rw [h] at hceq; simp at hceq
      | some dh => exact ⟨dh, rfl⟩
    rw [hdh] at hceq
    simp only [Option.some_bind] at hceq
    have hhh2 : dh.half_helix = some hh := hceq.symm
    obtain ⟨i1, hi1⟩ : ∃ i1, dl = Domain.helixDomain i1 := by
      cases dl with
      | helixDomain i => exact ⟨i, rfl⟩
      | insertion n => simp [Domain.half_helix] at hhh
    obtain ⟨i2, hi2⟩ : ∃ i2, dh = Domain.helixDomain i2 := by
      cases dh with
      | helixDomain i => exact ⟨i, rfl⟩
      | insertion n => simp [Domain.half_helix] at hhh2
    subst hi1; subst hi2
    have hp1 : (i1.helix, i1.forward) = hh := by
      have := hhh
      simp only [Domain.half_helix, Option.some.injEq] at this
      exact this
    have hp2 : (i2.helix, i2.forward) = hh := by
      have := hhh2
      simp only [Domain.half_helix, Option.some.injEq] at this
      exact this
    have hhel : i1.helix = i2.helix := by
      rw [← hp2] at hp1
      exact ((Prod.mk.injEq _ _ _ _).mp hp1).1
    have hfwd : i1.forward = i2.forward := by
      rw [← hp2] at hp1
      exact ((Prod.mk.injEq _ _ _ _).mp hp1).2
    obtain ⟨hlen1, hadj⟩ := hseam i1 i2 hdl hdh hhel hfwd
    refine ⟨(s5.domains.dropLast ++ [Domain.helixDomain (i1.mergeIv i2)] ++
        s3.domains.drop 1,
        (s5.junctions.take s5.domains.length).dropLast ++ s3.junctions), ?_, ?_⟩
    · simp only [mergeCore, hdl, hdh, Option.some_bind, hhh, hhh2]
      simp [Domain.mergeDom]
    · have h5eq : s5.domains = s5.domains.dropLast ++ [Domain.helixDomain i1] :=
        eq_dropLast_append hdl
      have h3eq : s3.domains = Domain.helixDomain i2 :: s3.domains.tail :=
        eq_head_cons hdh
      conv_rhs => rw [h5eq, h3eq]
      have hdrop : s3.domains.drop 1 = s3.domains.tail := by
        rw [h3eq]
        rfl
      show flatNucls (s5.domains.dropLast ++ [Domain.helixDomain (i1.mergeIv i2)] ++
          s3.domains.drop 1) = _
      rw [hdrop]
      rw [flatNucls_append, flatNucls_append, flatNucls_append]
      have hspan := mergeIv_nuclList hhel hfwd hlen1 hadj
      show flatNucls s5.domains.dropLast ++ ((i1.mergeIv i2).nuclList ++ []) ++
          flatNucls s3.domains.tail = _
      rw [hspan]
      show _ = flatNucls s5.domains.dropLast ++ (i1.nuclList ++ []) ++
          (i2.nuclList ++ flatNucls s3.domains.tail)
      simp [List.append_assoc]
  · refine ⟨(s5.domains ++ s3.domains,
        setLast (s5.junctions.take s5.domains.length)
          DomainJunction.UnindentifiedXover ++ s3.junctions), ?_, ?_⟩
    · have hc2 : ¬ ((s5.domains.getLast?.bind Domain.half_helix =
          s3.domains.head?.bind Domain.half_helix) ∧
          (s5.domains.getLast?.bind Domain.half_helix).isSome) := hc
      simp only [mergeCore, if_neg hc2]
    · exact flatNucls_append _ _

end Ensnano

namespace Ensnano

theorem drop_append_eq {α : Type} (l1 l2 : List α) : (l1 ++ l2).drop l1.length = l2 := by
  induction l1 with
  | nil => rfl
  | cons x t ih => simpa using ih

theorem drop_append_cons {α : Type} (l1 : List α) (a : α) (l2 : List α) :
    (l1 ++ a :: l2).drop (l1.length + 1) = l2 := by
  induction l1 with
  | nil => rfl
  | cons x t ih => simpa using ih

/-- Fields of `splitStrandParts` when the scan produced no split pieces. -/
theorem splitParts_of_pieces_none (strand : Strand) (nucl : Nucl) (forceEnd : Option Bool)
    (h : (splitScanGo nucl forceEnd strand.junctions strand.domains 0 none [] 0 []).pieces =
      none) :
    (splitStrandParts strand nucl forceEnd).strand5.domains =
      (splitScanGo nucl forceEnd strand.junctions strand.domains 0 none [] 0 []).prim5Domains ∧
    (splitStrandParts strand nucl forceEnd).strand3.domains =
      strand.domains.drop
        (splitScanGo nucl forceEnd strand.junctions strand.domains 0 none [] 0 []).i ∧
    (splitStrandParts strand nucl forceEnd).scan =
      splitScanGo nucl forceEnd strand.junctions strand.domains 0 none [] 0 [] := by
  refine ⟨?_, ?_, rfl⟩
  · simp only [splitStrandParts, h]
  · simp only [splitStrandParts, h]
    simp

/-- Fields of `splitStrandParts` when the scan split a domain into two pieces. -/
theorem splitParts_of_pieces_some (strand : Strand) (nucl : Nucl) (forceEnd : Option Bool)
    (a b : Domain)
    (h : (splitScanGo nucl forceEnd strand.junctions strand.domains 0 none [] 0 []).pieces =
      some (a, b)) :
    (splitStrandParts strand nucl forceEnd).strand5.domains =
      (splitScanGo nucl forceEnd strand.junctions strand.domains 0 none [] 0 []).prim5Domains ++
        [a] ∧
    (splitStrandParts strand nucl forceEnd).strand3.domains =
      b :: strand.domains.drop
        ((splitScanGo nucl forceEnd strand.junctions strand.domains 0 none [] 0 []).i + 1) ∧
    (splitStrandParts strand nucl forceEnd).scan =
      splitScanGo nucl forceEnd strand.junctions strand.domains 0 none [] 0 [] := by
  refine ⟨?_, ?_, rfl⟩
  · simp only [splitStrandParts, h]
  · simp only [splitStrandParts, h]
    simp

/-- Merging the two freshly inserted halves back: the merged strand found
under the 5′ id carries the concatenated nucleotides of the halves, provided
every fused seam is exact. -/
theorem mergeStrands_inserted (d0 : Design) (id5 id3 : Nat) (s5 s3 : Strand)
    (hne : id5 ≠ id3)
    (hseam : ∀ i1 i2, s5.domains.getLast? = some (Domain.helixDomain i1) →
      s3.domains.head? = some (Domain.helixDomain i2) →
      i1.helix = i2.helix → i1.forward = i2.forward →
      0 < i1.length ∧ i2.prime5 = i1.prime3.prime3) :
    ∃ d2 merged,
      mergeStrands ((d0.insert id5 s5).insert id3 s3) id5 id3 = .ok d2 ∧
      ((d0.insert id5 s5).insert id3 s3).find? id5 = some s5 ∧
      ((d0.insert id5 s5).insert id3 s3).find? id3 = some s3 ∧
      d2.find? id5 = some merged ∧
      merged.nuclSequence = flatNucls s5.domains ++ flatNucls s3.domains := by
  obtain ⟨dj, hmc, hflat⟩ := mergeCore_flatNucls s5 s3 hseam
  have hf5 : ((d0.insert id5 s5).insert id3 s3).find? id5 = some s5 := by
    show strandsFind? (insertStrand (insertStrand d0.strands id5 s5) id3 s3) id5 = some s5
    rw [find?_insertStrand_ne _ _ _ _ hne]
    exact find?_insertStrand_self _ _ _
  have hf3top : ((d0.insert id5 s5).insert id3 s3).find? id3 = some s3 := by
    show strandsFind? (insertStrand (insertStrand d0.strands id5 s5) id3 s3) id3 = some s3
    exact find?_insertStrand_self _ _ _
  have hf3 : (((d0.insert id5 s5).insert id3 s3).erase id5).find? id3 = some s3 := by
    show strandsFind? (eraseKey (insertStrand (insertStrand d0.strands id5 s5) id3 s3) id5)
      id3 = some s3
    rw [find?_eraseKey_ne _ _ _ (Ne.symm hne)]
    exact find?_insertStrand_self _ _ _
  refine ⟨((((d0.insert id5 s5).insert id3 s3).erase id5).erase id3).insert id5
      { domains := dj.1, junctions := dj.2, cyclic := false, color := s5.color,
        sequence := match s5.sequence, s3.sequence with
          | some a, some b => some (a ++ b)
          | some a, none => some a
          | none, some b => some b
          | none, none => none },
    { domains := dj.1, junctions := dj.2, cyclic := false, color := s5.color,
      sequence := match s5.sequence, s3.sequence with
        | some a, some b => some (a ++ b)
        | some a, none => some a
        | none, some b => some b
        | none, none => none }, ?_, hf5, hf3top, ?_, ?_⟩
  · unfold mergeStrands
    rw [if_pos hne]
    simp only [hf5, hf3, hmc]
  · show strandsFind? (insertStrand _ id5 _) id5 = _
    exact find?_insertStrand_self _ _ _
  · exact hflat

end Ensnano

namespace Ensnano

/-- C1 (amended): for a design containing a non-cyclic strand `s` whose
domains are proper (non-empty intervals) and sane (consecutive same-helix,
same-direction intervals directly adjacent), and a nucleotide strictly
interior to `s`, `split_strand` at that nucleotide (with `force_end = None`)
succeeds, both halves exist in the resulting document (one under the
original id, the other under the fresh id), and `merge_strands` applied with
the 5′ half as `prime5` and the 3′ half as `prime3` yields a strand whose
ordered nucleotide sequence equals that of `s`. -/
theorem claim1_split_merge_inverse (design : Design) (nucl : Nucl) (id : Nat) (s : Strand)
    (hg : getStrandNucl design nucl = some id)
    (hfind : design.find? id = some s)
    (hcyc : s.cyclic = false)
    (hprop : properDomainsB s.domains = true)
    (hsane : saneDomainsB s.domains = true)
    (hmem : nucl ∈ s.nuclSequence)
    (hhd : s.nuclSequence.head? ≠ some nucl)
    (hlast : s.nuclSequence.getLast? ≠ some nucl) :
    ∃ dsplit newId id5 id3 dmerged merged,
      splitStrand design nucl none = .ok (dsplit, newId) ∧
      ((id5 = id ∧ id3 = newId) ∨ (id5 = newId ∧ id3 = id)) ∧
      dsplit.find? id5 = some (splitStrandParts s nucl none).strand5 ∧
      dsplit.find? id3 = some (splitStrandParts s nucl none).strand3 ∧
      mergeStrands dsplit id5 id3 = .ok dmerged ∧
      dmerged.find? id5 = some merged ∧
      merged.nuclSequence = s.nuclSequence := by
  have hpropD : ∀ d ∈ s.domains, properDomain d := properDomainsB_mem hprop
  have hmem' : nucl ∈ flatNucls s.domains := hmem
  have hex : ∃ d ∈ s.domains, (d.has_nucl nucl).isSome := by
    obtain ⟨d, hd, hn⟩ := mem_flatNucls.mp hmem'
    exact ⟨d, hd, mem_domain_nuclList_has hn⟩
  have hle : id ≤ (keysMax? design.strands).getD 0 := find?_le_keysMax _ _ _ hfind
  have hmax : max ((keysMax? (eraseKey design.strands id)).getD 0) id =
      (keysMax? design.strands).getD 0 := keysMax_eraseKey _ _ _ hfind
  have hlen2 : ¬ (s.length ≤ 1) := by
    have hfl2 : 2 ≤ (flatNucls s.domains).length := by
      cases hq : flatNucls s.domains with
      | nil => rw [hq] at hmem'; simp at hmem'
      | cons x t =>
        cases t with
        | nil =>
          rw [hq] at hmem'
          have hx : nucl = x := by simpa using hmem'
          exfalso
          apply hhd
          show (flatNucls s.domains).head? = some nucl
          rw [hq, hx]
          rfl
        | cons y t2 => simp [hq]
    have hfl := flatNucls_length_le s.domains
    show ¬ (sumLengths s.domains ≤ 1)
    omega
  obtain ⟨pre, d, post, k, hre, hmiss, hk, hcase⟩ :=
    splitScanGo_spec nucl s.junctions s.domains 0 none [] 0 [] hpropD hex
  rcases hcase with ⟨hb5, hprev, c3, c4, c5, c6⟩ | ⟨hnb1, hb3, c3, c4, c5, c6⟩ |
    ⟨hnb1, hnb3, c3, c4, c5, c6⟩
  · -- 5′-extremity-of-a-crossover branch: 5′ half = `pre`, 3′ half = `d :: post`
    obtain ⟨hP5, hP3, hPscan⟩ := splitParts_of_pieces_none s nucl none c4
    have h5d : (splitStrandParts s nucl none).strand5.domains = pre := by
      rw [hP5, c3]; simp
    have h3d : (splitStrandParts s nucl none).strand3.domains = d :: post := by
      rw [hP3, c6, hre]
      show (pre ++ d :: post).drop (0 + pre.length) = d :: post
      rw [Nat.zero_add]
      exact drop_append_eq pre (d :: post)
    have hpre_ne : pre ≠ [] := by
      intro hpe
      subst hpe
      obtain ⟨iv, hdi, hnv⟩ := prime5_end_cases hb5
      subst hdi
      have hp : properDomain (Domain.helixDomain iv) := hpropD _ (by rw [hre]; simp)
      have hp0 : 0 < iv.length := hp
      apply hhd
      show (flatNucls s.domains).head? = some nucl
      rw [hre]
      show (iv.nuclList ++ flatNucls post).head? = some nucl
      rw [eq_head_cons (nuclList_head? hp0)]
      show some (iv.nuclAt 0) = some nucl
      rw [← prime5_eq_nuclAt, ← hnv]
    have hON : (splitStrandParts s nucl none).scan.on3prime = true := by
      rw [hPscan]; exact c5
    have h5' : 0 < (splitStrandParts s nucl none).strand5.domains.length := by
      rw [h5d]; exact List.length_pos.mpr hpre_ne
    have h3' : 0 < (splitStrandParts s nucl none).strand3.domains.length := by
      rw [h3d]; simp
    have hne : (keysMax? design.strands).getD 0 + 1 ≠ id := by omega
    have hsplit : splitStrand design nucl none =
        .ok (((design.erase id).insert ((keysMax? design.strands).getD 0 + 1)
          (splitStrandParts s nucl none).strand5).insert id
          (splitStrandParts s nucl none).strand3,
          (keysMax? design.strands).getD 0 + 1) := by
      simp only [splitStrand, hg, hfind, hcyc, hlen2, hON, h5', h3', Design.erase,
        Design.insert, if_false, if_true, Bool.not_true, ite_true, ite_false, hmax]
      simp
    have hseam : ∀ i1 i2,
        (splitStrandParts s nucl none).strand5.domains.getLast? =
          some (Domain.helixDomain i1) →
        (splitStrandParts s nucl none).strand3.domains.head? =
          some (Domain.helixDomain i2) →
        i1.helix = i2.helix → i1.forward = i2.forward →
        0 < i1.length ∧ i2.prime5 = i1.prime3.prime3 := by
      intro i1 i2 hgl hh2 hh hf
      exfalso
      rw [h5d] at hgl
      rw [h3d, List.head?_cons] at hh2
      injection hh2 with hd2
      apply hprev
      show prevHelixOf pre none = d.helix
      unfold prevHelixOf
      rw [hgl, hd2]
      show some i1.helix = some i2.helix
      rw [hh]
    obtain ⟨d2m, merged, hmrg, hf5x, hf3x, hfm, hnseq⟩ :=
      mergeStrands_inserted (design.erase id) ((keysMax? design.strands).getD 0 + 1) id
        (splitStrandParts s nucl none).strand5 (splitStrandParts s nucl none).strand3
        hne hseam
    rw [h5d, h3d] at hnseq
    have hfinal : flatNucls pre ++ flatNucls (d :: post) = s.nuclSequence := by
      show _ = flatNucls s.domains
      rw [hre, flatNucls_append]
    exact ⟨_, _, _, _, _, merged, hsplit, Or.inr ⟨rfl, rfl⟩, hf5x, hf3x, hmrg, hfm,
      hnseq.trans hfinal⟩
  · -- 3′-extremity branch: 5′ half = `pre ++ [d]`, 3′ half = `post`
    obtain ⟨hP5, hP3, hPscan⟩ := splitParts_of_pieces_none s nucl none c4
    have h5d : (splitStrandParts s nucl none).strand5.domains = pre ++ [d] := by
      rw [hP5, c3]; simp
    have h3d : (splitStrandParts s nucl none).strand3.domains = post := by
      rw [hP3, c6, hre]
      show (pre ++ d :: post).drop (0 + pre.length + 1) = post
      rw [Nat.zero_add]
      exact drop_append_cons pre d post
    have hpost_ne : post ≠ [] := by
      intro hpe
      subst hpe
      obtain ⟨iv, hdi, hnv⟩ := prime3_end_cases hb3
      subst hdi
      have hp : properDomain (Domain.helixDomain iv) := hpropD _ (by rw [hre]; simp)
      have hp0 : 0 < iv.length := hp
      apply hlast
      show (flatNucls s.domains).getLast? = some nucl
      rw [hre]
      have heq : flatNucls (pre ++ [Domain.helixDomain iv]) =
          (flatNucls pre ++ iv.nuclList.dropLast) ++ [iv.nuclAt (iv.length - 1)] := by
        rw [flatNucls_append]
        show flatNucls pre ++ (iv.nuclList ++ []) = _
        rw [List.append_nil]
        conv_lhs => rw [eq_dropLast_append (nuclList_getLast? hp0)]
        rw [List.append_assoc]
      rw [heq, List.getLast?_concat]
      show some (iv.nuclAt (iv.length - 1)) = some nucl
      rw [← prime3_eq_nuclAt hp0, ← hnv]
    have hON : (splitStrandParts s nucl none).scan.on3prime = false := by
      rw [hPscan]; exact c5
    have h5' : 0 < (splitStrandParts s nucl none).strand5.domains.length := by
      rw [h5d]; simp
    have h3' : 0 < (splitStrandParts s nucl none).strand3.domains.length := by
      rw [h3d]; exact List.length_pos.mpr hpost_ne
    have hne : id ≠ (keysMax? design.strands).getD 0 + 1 := by omega
    have hsplit : splitStrand design nucl none =
        .ok (((design.erase id).insert id
          (splitStrandParts s nucl none).strand5).insert
          ((keysMax? design.strands).getD 0 + 1)
          (splitStrandParts s nucl none).strand3,
          (keysMax? design.strands).getD 0 + 1) := by
      simp only [splitStrand, hg, hfind, hcyc, hlen2, hON, h5', h3', Design.erase,
        Design.insert, if_false, if_true, Bool.not_false, ite_true, ite_false, hmax]
      simp
    have hseam : ∀ i1 i2,
        (splitStrandParts s nucl none).strand5.domains.getLast? =
          some (Domain.helixDomain i1) →
        (splitStrandParts s nucl none).strand3.domains.head? =
          some (Domain.helixDomain i2) →
        i1.helix = i2.helix → i1.forward = i2.forward →
        0 < i1.length ∧ i2.prime5 = i1.prime3.prime3 := by
      intro i1 i2 hgl hh2 hh hf
      rw [h5d, List.getLast?_concat] at hgl
      injection hgl with hd1
      subst hd1
      rw [h3d] at hh2
      have hpost2 := eq_head_cons hh2
      have hsd : s.domains = pre ++ Domain.helixDomain i1 ::
          Domain.helixDomain i2 :: post.tail := by
        conv_lhs => rw [hre, hpost2]
      have hseamEx : seamExact (Domain.helixDomain i1) (Domain.helixDomain i2) = true := by
        apply saneDomainsB_pair pre (Domain.helixDomain i1) (Domain.helixDomain i2) post.tail
        rw [← hsd]; exact hsane
      have hp : properDomain (Domain.helixDomain i1) := hpropD _ (by rw [hsd]; simp)
      exact ⟨hp, seamExact_spec hseamEx hh hf⟩
    obtain ⟨d2m, merged, hmrg, hf5x, hf3x, hfm, hnseq⟩ :=
      mergeStrands_inserted (design.erase id) id ((keysMax? design.strands).getD 0 + 1)
        (splitStrandParts s nucl none).strand5 (splitStrandParts s nucl none).strand3
        hne hseam
    rw [h5d, h3d] at hnseq
    have hfinal : flatNucls (pre ++ [d]) ++ flatNucls post = s.nuclSequence := by
      show _ = flatNucls s.domains
      rw [hre, flatNucls_append, flatNucls_append]
      simp [flatNucls, List.append_assoc]
    exact ⟨_, _, _, _, _, merged, hsplit, Or.inl ⟨rfl, rfl⟩, hf5x, hf3x, hmrg, hfm,
      hnseq.trans hfinal⟩
  · -- interior branch: the containing domain is split in two
    obtain ⟨iv, hdi, hivk⟩ := has_nucl_cases hk
    subst hdi
    have hklt : k < iv.length := hasNucl_lt hivk
    have hkne : k + 1 ≠ iv.length := by
      intro he
      apply hnb3
      show some iv.prime3 = some nucl
      have hn := hasNucl_nuclAt hivk
      rw [hn, prime3_eq_nuclAt (show 0 < iv.length by omega)]
      have hke : iv.length - 1 = k := by omega
      rw [hke]
    have hk1 : k + 1 < iv.length := by omega
    obtain ⟨a, b, hab⟩ := splitAt_isSome hk1
    have hdsp : (Domain.helixDomain iv).split k =
        some (Domain.helixDomain a, Domain.helixDomain b) := by
      show (iv.splitAt k).map _ = _
      rw [hab]
      rfl
    have c4' : (splitScanGo nucl none s.junctions s.domains 0 none [] 0 []).pieces =
        some (Domain.helixDomain a, Domain.helixDomain b) := c4.trans hdsp
    obtain ⟨hP5, hP3, hPscan⟩ :=
      splitParts_of_pieces_some s nucl none (Domain.helixDomain a)
        (Domain.helixDomain b) c4'
    have h5d : (splitStrandParts s nucl none).strand5.domains =
        pre ++ [Domain.helixDomain a] := by
      rw [hP5, c3]; simp
    have h3d : (splitStrandParts s nucl none).strand3.domains =
        Domain.helixDomain b :: post := by
      rw [hP3, c6, hre]
      show Domain.helixDomain b ::
        (pre ++ Domain.helixDomain iv :: post).drop (0 + pre.length + 1) =
        Domain.helixDomain b :: post
      rw [Nat.zero_add, drop_append_cons]
    have hsp := splitAt_spec hab
    have hON : (splitStrandParts s nucl none).scan.on3prime = false := by
      rw [hPscan]; exact c5
    have h5' : 0 < (splitStrandParts s nucl none).strand5.domains.length := by
      rw [h5d]; simp
    have h3' : 0 < (splitStrandParts s nucl none).strand3.domains.length := by
      rw [h3d]; simp
    have hne : id ≠ (keysMax? design.strands).getD 0 + 1 := by omega
    have hsplit : splitStrand design nucl none =
        .ok (((design.erase id).insert id
          (splitStrandParts s nucl none).strand5).insert
          ((keysMax? design.strands).getD 0 + 1)
          (splitStrandParts s nucl none).strand3,
          (keysMax? design.strands).getD 0 + 1) := by
      simp only [splitStrand, hg, hfind, hcyc, hlen2, hON, h5', h3', Design.erase,
        Design.insert, if_false, if_true, Bool.not_false, ite_true, ite_false, hmax]
      simp
    have hseam : ∀ i1 i2,
        (splitStrandParts s nucl none).strand5.domains.getLast? =
          some (Domain.helixDomain i1) →
        (splitStrandParts s nucl none).strand3.domains.head? =
          some (Domain.helixDomain i2) →
        i1.helix = i2.helix → i1.forward = i2.forward →
        0 < i1.length ∧ i2.prime5 = i1.prime3.prime3 := by
      intro i1 i2 hgl hh2 hh hf
      rw [h5d, List.getLast?_concat] at hgl
      injection hgl with hd1
      injection hd1 with hai
      rw [h3d, List.head?_cons] at hh2
      injection hh2 with hd2
      injection hd2 with hbi
      subst hai
      subst hbi
      exact ⟨hsp.2.2.2.2.1, hsp.2.2.2.2.2.2.1⟩
    obtain ⟨d2m, merged, hmrg, hf5x, hf3x, hfm, hnseq⟩ :=
      mergeStrands_inserted (design.erase id) id ((keysMax? design.strands).getD 0 + 1)
        (splitStrandParts s nucl none).strand5 (splitStrandParts s nucl none).strand3
        hne hseam
    rw [h5d, h3d] at hnseq
    have hconc := hsp.2.2.2.2.2.2.2
    have hfinal : flatNucls (pre ++ [Domain.helixDomain a]) ++
        flatNucls (Domain.helixDomain b :: post) = s.nuclSequence := by
      show _ = flatNucls s.domains
      rw [hre]
      simp only [flatNucls_append, flatNucls, Domain.nuclList, List.append_nil,
        List.append_assoc]
      rw [← hconc]
      simp only [List.append_assoc]
    exact ⟨_, _, _, _, _, merged, hsplit, Or.inl ⟨rfl, rfl⟩, hf5x, hf3x, hmrg, hfm,
      hnseq.trans hfinal⟩

end Ensnano

namespace Ensnano

/-- A non-cyclic strand whose two domains lie on the same helix in the same
direction, separated by a two-nucleotide gap (positions 3 and 4). -/
def exGapStrand : Strand :=
  mkStrand [Domain.helixDomain ⟨0, 0, 3, true⟩, Domain.helixDomain ⟨0, 5, 8, true⟩]
    [DomainJunction.UnindentifiedXover, DomainJunction.Prime3] false

def exGapOne : Design := ⟨[(0, exGapStrand)]⟩

/-- C1 counterexample to the claim as stated: the nucleotide `(0, 2, forward)`
is strictly interior to the (non-cyclic) gapped strand, `split_strand`
succeeds and produces two strands, yet merging the 5′ half (id 0) with the 3′
half (id 1) yields a strand whose nucleotide sequence differs from the
original: the seam fusion spans the gap, adding positions 3 and 4. -/
theorem claim1_cex :
    (getStrandNucl exGapOne ⟨0, 2, true⟩ = some 0 ∧
     exGapOne.find? 0 = some exGapStrand ∧
     exGapStrand.cyclic = false ∧
     (⟨0, 2, true⟩ : Nucl) ∈ exGapStrand.nuclSequence ∧
     exGapStrand.nuclSequence.head? ≠ some ⟨0, 2, true⟩ ∧
     exGapStrand.nuclSequence.getLast? ≠ some ⟨0, 2, true⟩) ∧
    splitStrand exGapOne ⟨0, 2, true⟩ none = .ok (exGap, 1) ∧
    exGap.find? 0 = some (splitStrandParts exGapStrand ⟨0, 2, true⟩ none).strand5 ∧
    exGap.find? 1 = some (splitStrandParts exGapStrand ⟨0, 2, true⟩ none).strand3 ∧
    mergeStrands exGap 0 1 = .ok exGapMerged ∧
    exGapMerged.find? 0 = some
      (mkStrand [Domain.helixDomain ⟨0, 0, 8, true⟩] [DomainJunction.Prime3] false) ∧
    (mkStrand [Domain.helixDomain ⟨0, 0, 8, true⟩]
      [DomainJunction.Prime3] false).nuclSequence ≠ exGapStrand.nuclSequence :=
  ⟨⟨rfl, rfl, rfl, by decide, by decide, by decide⟩,
   rfl, rfl, rfl, rfl, rfl, by decide⟩

/-- A single-domain strand of six nucleotides. -/
def exOneStrand : Strand :=
  mkStrand [Domain.helixDomain ⟨0, 0, 6, true⟩] [DomainJunction.Prime3] false

def exOne : Design := ⟨[(0, exOneStrand)]⟩

theorem claim1_split_merge_inverse_witness :
    (getStrandNucl exOne ⟨0, 3, true⟩ = some 0 ∧
     exOne.find? 0 = some exOneStrand ∧
     exOneStrand.cyclic = false ∧
     properDomainsB exOneStrand.domains = true ∧
     saneDomainsB exOneStrand.domains = true ∧
     (⟨0, 3, true⟩ : Nucl) ∈ exOneStrand.nuclSequence ∧
     exOneStrand.nuclSequence.head? ≠ some ⟨0, 3, true⟩ ∧
     exOneStrand.nuclSequence.getLast? ≠ some ⟨0, 3, true⟩) ∧
    ∃ dsplit newId id5 id3 dmerged merged,
      splitStrand exOne ⟨0, 3, true⟩ none = .ok (dsplit, newId) ∧
      ((id5 = 0 ∧ id3 = newId) ∨ (id5 = newId ∧ id3 = 0)) ∧
      dsplit.find? id5 = some (splitStrandParts exOneStrand ⟨0, 3, true⟩ none).strand5 ∧
      dsplit.find? id3 = some (splitStrandParts exOneStrand ⟨0, 3, true⟩ none).strand3 ∧
      mergeStrands dsplit id5 id3 = .ok dmerged ∧
      dmerged.find? id5 = some merged ∧
      merged.nuclSequence = exOneStrand.nuclSequence :=
  ⟨⟨rfl, rfl, rfl, by decide, by decide, by decide, by decide, by decide⟩,
   claim1_split_merge_inverse exOne ⟨0, 3, true⟩ 0 exOneStrand rfl rfl rfl
     (by decide) (by decide) (by decide) (by decide) (by decide)⟩

end Ensnano
